import Mathlib

/-!
Verification development for the photo auto-tagger core.

This file gives a shallow embedding of the tag-write layer of the
Lightroom catalog manager (`lightroom_manager.py`), the XMP sidecar
store (`xmp_manager.py`), the preview resolver
(`lightroom_manager.py`), and the resumable batch pipeline
(`photo_tagger_gui.py`), together with theorems settling the
specification claims about them.

Machine integers do not appear (ids and counters are unbounded Python
ints, modelled as `Nat`); Python strings are modelled as `String`,
with the handful of `str` methods the sources use re-implemented by
structural recursion over the character list so that everything
evaluates inside the kernel.
-/

namespace PhotoTagger

/-! ## String helpers modelling the Python `str` methods used by the sources -/

/-- Python `str.lower` (the sources only apply it to ASCII tag text). -/
def pyLower (s : String) : String := String.mk (s.data.map Char.toLower)

/-- Python `str.upper`. -/
def pyUpper (s : String) : String := String.mk (s.data.map Char.toUpper)

/-- Whitespace recognized by Python `str.strip()`. -/
def isPyWS (c : Char) : Bool :=
  c == ' ' || c == '\t' || c == '\n' || c == '\x0d' || c == '\x0b' || c == '\x0c'

/-- Strip leading and trailing whitespace from a character list. -/
def stripChars (l : List Char) : List Char :=
  ((l.dropWhile isPyWS).reverse.dropWhile isPyWS).reverse

/-- Python `str.strip()`. -/
def pstrip (s : String) : String := String.mk (stripChars s.data)

/-- Python `str.startswith`. -/
def strStartsWith (s head : String) : Bool := head.data.isPrefixOf s.data

/-- Python `str.endswith`. -/
def strEndsWith (s tail : String) : Bool := tail.data.reverse.isPrefixOf s.data.reverse

/-- Split a character list on a separator character (Python `str.split(sep)`
for a one-character separator). -/
def splitCharAux (c : Char) : List Char → List (List Char)
  | [] => [[]]
  | x :: xs =>
    match splitCharAux c xs with
    | [] => [[x]]
    | h :: t => if x == c then [] :: h :: t else (x :: h) :: t

/-- Python `str.split(sep)` for a one-character separator. -/
def pySplit (s : String) (c : Char) : List String := (splitCharAux c s.data).map String.mk

/-- Python `sep.join(parts)` for a one-character separator. -/
def joinSep (c : Char) (parts : List String) : String :=
  match parts with
  | [] => ""
  | p :: ps => ps.foldl (fun acc q => acc ++ String.mk [c] ++ q) p

/-- Python slicing `s[:n]`. -/
def strTake (s : String) (n : Nat) : String := String.mk (s.data.take n)

/-- Lexicographic comparison of character lists by code point, used only to
model the presentation-level `ORDER BY name` of the catalog query. -/
def charsLe : List Char → List Char → Bool
  | [], _ => true
  | _ :: _, [] => false
  | a :: as, b :: bs => if a == b then charsLe as bs else decide (a < b)

/-- Insert a string into a lexicographically sorted list. -/
def insertSorted (x : String) : List String → List String
  | [] => [x]
  | y :: ys => if charsLe x.data y.data then x :: y :: ys else y :: insertSorted x ys

/-- Insertion sort on strings, modelling the `ORDER BY name` clause. -/
def sortStrings (l : List String) : List String := l.foldr insertSorted []

/-- Keep the first occurrence of each string, modelling `SELECT DISTINCT`. -/
def dedupKeepFirst (seen : List String) : List String → List String
  | [] => []
  | x :: xs => if x ∈ seen then dedupKeepFirst seen xs else x :: dedupKeepFirst (x :: seen) xs

/-! ## Catalog data model (`lightroom_manager.py`)

A keyword row of `AgLibraryKeyword` and the photo-keyword association
rows of `AgLibraryKeywordImage`.  Row order of the lists models SQLite
row order (`fetchone` with no `ORDER BY` returns the first row). -/

/-- One row of `AgLibraryKeyword`. -/
structure Keyword where
  id_local : Nat
  id_global : String
  name : String
  lc_name : String
  dateCreated : String
  genealogy : String
deriving DecidableEq, Repr

/-- The mutable part of the catalog that `add_tags` touches: the keyword
table, the photo-keyword association table (rows `(image, tag)`), and a
cursor into the deterministic UUID stream modelling `uuid.uuid4()`. -/
structure Catalog where
  keywords : List Keyword
  edges : List (Nat × Nat)
  uuidSeq : Nat
deriving DecidableEq, Repr

/-- External inputs of keyword creation: the `uuid.uuid4()` stream and the
`datetime('now')` timestamp. -/
structure KwEnv where
  uuidOf : Nat → String
  now : String

/-- Fault injection for the SQLite layer: each flag makes the
corresponding primitive statement of `add_tags` /
`_get_or_create_keyword` / `get_existing_tags` raise `sqlite3.Error`
when executed.  `FaultSpec.none` is the fault-free semantics. -/
structure FaultSpec where
  failExisting : Bool
  failBegin : Bool
  failCommit : Bool
  failKwLookup : String → Bool
  failKwMax : String → Bool
  failKwInsert : String → Bool
  failEdgeSelect : String → Bool
  failEdgeInsert : String → Bool

/-- The fault-free execution. -/
def FaultSpec.none : FaultSpec :=
  ⟨false, false, false, fun _ => false, fun _ => false, fun _ => false,
   fun _ => false, fun _ => false⟩

/-- `SELECT id_local FROM AgLibraryKeyword WHERE name = ?` (first row). -/
def findKeyword (db : Catalog) (tag : String) : Option Keyword :=
  db.keywords.find? (fun k => k.name == tag)

/-- Keyword rows joined to a photo through `AgLibraryKeywordImage`. -/
def linkedKeywords (db : Catalog) (photoId : Nat) : List Keyword :=
  db.keywords.filter (fun k => decide ((photoId, k.id_local) ∈ db.edges))

/-- `get_existing_tags`: distinct names of the keywords linked to the
photo, ordered by name, with falsy (empty) names dropped by the Python
`if row[0]` filter. -/
def get_existing_tags (db : Catalog) (photoId : Nat) : List String :=
  (sortStrings (dedupKeepFirst [] ((linkedKeywords db photoId).map Keyword.name))).filter
    (fun n => n != "")

/-- `_get_or_create_keyword`.  Returns the updated catalog, the keyword id
(`none` when a swallowed `sqlite3.Error` occurred), and the number of
errors raised (0 or 1).  The internal `try` of the source catches every
storage error and returns `None`, so no partial keyword row survives. -/
def get_or_create_keyword (env : KwEnv) (spec : FaultSpec) (db : Catalog) (tag : String) :
    Catalog × Option Nat × Nat :=
  if spec.failKwLookup tag then (db, none, 1)
  else
    match findKeyword db tag with
    | some k => (db, some k.id_local, 0)
    | none =>
      if spec.failKwMax tag then (db, none, 1)
      else
        let maxId := (db.keywords.map Keyword.id_local).foldl Nat.max 0
        let newId := maxId + 1
        if spec.failKwInsert tag then (db, none, 1)
        else
          let kw : Keyword :=
            { id_local := newId
              id_global := env.uuidOf db.uuidSeq
              name := tag
              lc_name := pyLower tag
              dateCreated := env.now
              genealogy := "/" ++ tag }
          ({ db with keywords := db.keywords ++ [kw], uuidSeq := db.uuidSeq + 1 }, some newId, 0)

/-- The per-tag loop of `add_tags`, inside the open transaction.  Returns
`(escaped, db, errors)` where `escaped` means a storage error reached the
outer handler of `add_tags` (edge `SELECT`/`INSERT`); swallowed keyword
errors only bump the error count and skip the tag. -/
def add_tags_loop (env : KwEnv) (spec : FaultSpec) (photoId : Nat) (existingLower : List String) :
    List String → Catalog → Nat → Bool × Catalog × Nat
  | [], db, errs => (false, db, errs)
  | tag :: rest, db, errs =>
    if pyLower tag ∈ existingLower then
      add_tags_loop env spec photoId existingLower rest db errs
    else
      match get_or_create_keyword env spec db tag with
      | (db₁, none, d) => add_tags_loop env spec photoId existingLower rest db₁ (errs + d)
      | (db₁, some kid, d) =>
        if spec.failEdgeSelect tag then (true, db₁, errs + d + 1)
        else if (photoId, kid) ∈ db₁.edges then
          add_tags_loop env spec photoId existingLower rest db₁ (errs + d)
        else if spec.failEdgeInsert tag then (true, db₁, errs + d + 1)
        else
          add_tags_loop env spec photoId existingLower rest
            { db₁ with edges := db₁.edges ++ [(photoId, kid)] } (errs + d)

/-- Result of one `add_tags` call: the catalog after the call, the boolean
return value, whether a storage error escaped to the outer handler, and
the number of storage errors raised during the call. -/
structure TagWriteResult where
  db : Catalog
  ok : Bool
  escaped : Bool
  errors : Nat
deriving DecidableEq, Repr

/-- `add_tags`.  Empty tag list returns `True` before any statement runs.
`get_existing_tags` swallows its own errors (returning `[]`).  `BEGIN`
opens the transaction; an escaped error triggers `ROLLBACK`, which
restores the pre-call catalog because nothing before `BEGIN` writes. -/
def add_tags (env : KwEnv) (spec : FaultSpec) (db : Catalog) (photoId : Nat)
    (tags : List String) : TagWriteResult :=
  if tags.isEmpty then ⟨db, true, false, 0⟩
  else
    let e0 := if spec.failExisting then 1 else 0
    let existing := if spec.failExisting then [] else get_existing_tags db photoId
    let existingLower := existing.map pyLower
    if spec.failBegin then ⟨db, false, true, e0 + 1⟩
    else
      match add_tags_loop env spec photoId existingLower tags db e0 with
      | (true, _, errs) => ⟨db, false, true, errs⟩
      | (false, db', errs) =>
        if spec.failCommit then ⟨db, false, true, errs + 1⟩
        else ⟨db', true, false, errs⟩

/-! ## Preview resolution (`lightroom_manager.py`)

Blobs and decoded images are opaque handles (`Nat`); decoding and the
filesystem are oracles supplied by `FsEnv`. -/

/-- Opaque handle for a preview blob (`bytes`). -/
abbrev Blob := Nat

/-- Opaque handle for a decoded `PIL.Image`. -/
abbrev Img := Nat

/-- Filesystem and decoding oracles: `os.path.exists`, `Image.open` on a
path (`none` when the file is missing or undecodable), and
`Image.open(BytesIO(blob))` (`none` when decoding fails). -/
structure FsEnv where
  fsExists : String → Bool
  openImage : String → Option Img
  decodeBlob : Blob → Option Img

/-- Connection-level preview state of `LightroomManager`: the detected
pyramid/standard preview tables, the catalog path, and the relevant
table contents.  `pyramidRows`/`previewRows` hold the rows with
non-null `data`; `dngProxy` is the photo-id to `fileUUID` relation
obtained by joining `Adobe_images`, `AgLibraryFile` and
`AgDNGProxyInfo`. -/
structure LRState where
  pyramid_table : Option String
  preview_table : Option String
  catalog_path : Option String
  pyramidRows : List (Nat × Blob)
  previewRows : List (Nat × Nat × Blob)
  dngProxy : List (Nat × String)

/-- First `data` blob for a photo id (`WHERE image = ? AND data IS NOT
NULL LIMIT 1`). -/
def lookupBlob (rows : List (Nat × Blob)) (photoId : Nat) : Option Blob :=
  (rows.find? (fun r => r.1 == photoId)).map Prod.snd

/-- The `fileUUID` of a photo through the `AgDNGProxyInfo` join. -/
def lookupProxyUUID (rows : List (Nat × String)) (photoId : Nat) : Option String :=
  (rows.find? (fun r => r.1 == photoId)).map Prod.snd

/-- `os.path.dirname` (for the absolute catalog paths the GUI passes in). -/
def dirname (p : String) : String := joinSep '/' (pySplit p '/').dropLast

/-- `os.path.basename`. -/
def basename (p : String) : String := ((pySplit p '/').getLastD "")

/-- Characters of a file name without its last extension
(`os.path.splitext(...)[0]` / `pathlib.Path.stem`): drop from the last
dot, unless the only dot is the leading character. -/
def stemChars (cs : List Char) : List Char :=
  match cs.reverse.dropWhile (fun c => !(c == '.')) with
  | [] => cs
  | _ :: rest => if rest.isEmpty then cs else rest.reverse

/-- `os.path.splitext(os.path.basename(p))[0]`. -/
def splitextBase (p : String) : String := String.mk (stemChars (basename p).data)

/-- Method 1 of `_get_smart_preview_pyramid`: the pyramid-table blob, if a
pyramid table was detected; a decode failure is non-fatal (`none`). -/
def get_smart_preview_sql (fs : FsEnv) (m : LRState) (photoId : Nat) : Option Img :=
  match m.pyramid_table with
  | none => none
  | some _ =>
    match lookupBlob m.pyramidRows photoId with
    | none => none
    | some b => fs.decodeBlob b

/-- The three candidate `.lrdata` directory names probed next to the
catalog (the source lists the first pattern twice). -/
def smartPreviewsDirCandidates (catalogPath : String) : List String :=
  let catalogDir := dirname catalogPath
  let catalogBase := splitextBase catalogPath
  [ catalogDir ++ "/" ++ catalogBase ++ " Smart Previews.lrdata",
    catalogDir ++ "/" ++ catalogBase ++ " Smart Previews.lrdata",
    catalogDir ++ "/Smart Previews.lrdata" ]

/-- The five sharded path patterns tried for a `fileUUID`, in source
order: modern `X/XXXX/UUID.dng`, lower/upper-case variants, and two
legacy shallower layouts. -/
def smartPreviewPatterns (lrdataPath fileUUID : String) : List String :=
  [ lrdataPath ++ "/" ++ strTake fileUUID 1 ++ "/" ++ strTake fileUUID 4 ++ "/" ++ fileUUID ++ ".dng",
    lrdataPath ++ "/" ++ pyLower (strTake fileUUID 1) ++ "/" ++ pyLower (strTake fileUUID 4) ++ "/" ++ fileUUID ++ ".dng",
    lrdataPath ++ "/" ++ pyUpper (strTake fileUUID 1) ++ "/" ++ pyUpper (strTake fileUUID 4) ++ "/" ++ pyUpper fileUUID ++ ".dng",
    lrdataPath ++ "/" ++ strTake fileUUID 1 ++ "/" ++ fileUUID ++ ".dng",
    lrdataPath ++ "/" ++ fileUUID ++ ".dng" ]

/-- First pattern that exists on disk and decodes; a failed decode
continues with the next pattern. -/
def firstDecodable (fs : FsEnv) : List String → Option Img
  | [] => none
  | p :: ps =>
    if fs.fsExists p then
      match fs.openImage p with
      | some i => some i
      | none => firstDecodable fs ps
    else firstDecodable fs ps

/-- Method 2 of `_get_smart_preview_pyramid`: the UUID-sharded file in the
`.lrdata` directory next to the catalog. -/
def get_smart_preview_lrdata (fs : FsEnv) (m : LRState) (photoId : Nat) : Option Img :=
  match m.catalog_path with
  | none => none
  | some cp =>
    match (smartPreviewsDirCandidates cp).find? fs.fsExists with
    | none => none
    | some lrdataPath =>
      match lookupProxyUUID m.dngProxy photoId with
      | none => none
      | some u =>
        if u = "" then none
        else firstDecodable fs (smartPreviewPatterns lrdataPath u)

/-- `_get_smart_preview_pyramid`: the SQL pyramid blob, then the sharded
`.lrdata` file. -/
def get_smart_preview_pyramid (fs : FsEnv) (m : LRState) (photoId : Nat) : Option Img :=
  match get_smart_preview_sql fs m photoId with
  | some i => some i
  | none => get_smart_preview_lrdata fs m photoId

/-- The row with the largest `dimension` for a photo (`ORDER BY dimension
DESC LIMIT 1`; on ties the earlier row is kept). -/
def bestPreviewRow (rows : List (Nat × Nat × Blob)) (photoId : Nat) : Option Blob :=
  match rows.filter (fun r => r.1 == photoId) with
  | [] => none
  | r :: rest =>
    some (rest.foldl (fun best q => if best.2.1 < q.2.1 then q else best) r).2.2

/-- `_get_standard_preview`: the standard-preview-table row with the
largest declared dimension; decode failure returns `none`. -/
def get_standard_preview (fs : FsEnv) (m : LRState) (photoId : Nat) : Option Img :=
  match m.preview_table with
  | none => none
  | some _ =>
    match bestPreviewRow m.previewRows photoId with
    | none => none
    | some b => fs.decodeBlob b

/-- `get_smart_preview`: smart preview (pyramid blob, then sharded file),
then standard preview, else nothing. -/
def get_smart_preview (fs : FsEnv) (m : LRState) (photoId : Nat) : Option Img :=
  match get_smart_preview_pyramid fs m photoId with
  | some i => some i
  | none => get_standard_preview fs m photoId

/-! ## XMP sidecar store (`xmp_manager.py`)

A sidecar file is modelled by the text entries of its
`dc:subject/rdf:Bag` (`rdf:li` elements) plus enough structure to
express the two parse-level failure modes: an unparseable file, and a
parseable document with no `rdf:Description` element.  Writing stores
the tag strings verbatim; parsing turns an empty stored entry into an
absent text node (as lxml does), which `read_tags` skips. -/

/-- Content of a sidecar path. -/
inductive XmpFile where
  | malformed : XmpFile
  | doc (hasDescription : Bool) (entries : List String) : XmpFile
deriving DecidableEq, Repr

/-- The sidecar filesystem: association list from path to content. -/
abbrev XmpFs := List (String × XmpFile)

/-- Look a path up in the sidecar filesystem. -/
def fsLookup (fs : XmpFs) (p : String) : Option XmpFile :=
  (fs.find? (fun e => e.1 == p)).map Prod.snd

/-- Overwrite (or create) a path in the sidecar filesystem (the OS-level
file write of `tree.write(xmp_path)`). -/
def fsWrite (fs : XmpFs) (p : String) (f : XmpFile) : XmpFs :=
  (p, f) :: fs.filter (fun e => !(e.1 == p))

/-- `get_xmp_path`: sibling file, same stem, `.xmp` extension (never the
original extension with `.xmp` appended). -/
def get_xmp_path (image_path : String) : String :=
  let parts := pySplit image_path '/'
  let stem := String.mk (stemChars (parts.getLastD "").data)
  let parent := joinSep '/' parts.dropLast
  (if parent = "" then "" else parent ++ "/") ++ stem ++ ".xmp"

/-- `read_tags`: empty if the sidecar is absent or unparseable; otherwise
each `rdf:li` entry with truthy text, stripped.  An entry stored as the
empty string parses back with no text node and is skipped. -/
def read_tags (fs : XmpFs) (image_path : String) : List String :=
  match fsLookup fs (get_xmp_path image_path) with
  | none => []
  | some .malformed => []
  | some (.doc _ entries) =>
    entries.filterMap (fun t => if t = "" then none else some (pstrip t))

/-- `write_tags`: empty tag list returns `True` untouched; otherwise read
the existing tags, append the genuinely new ones (exact-string dedup,
order preserved), and rewrite the whole document — creating it when the
sidecar is absent, failing when it is unparseable or has no
`rdf:Description`. -/
def write_tags (fs : XmpFs) (image_path : String) (new_tags : List String) : XmpFs × Bool :=
  if new_tags.isEmpty then (fs, true)
  else
    let xmpPath := get_xmp_path image_path
    let existing := read_tags fs image_path
    let allTags := new_tags.foldl (fun acc t => if t ∈ acc then acc else acc ++ [t]) existing
    match fsLookup fs xmpPath with
    | some .malformed => (fs, false)
    | some (.doc false _) => (fs, false)
    | some (.doc true _) => (fsWrite fs xmpPath (.doc true allTags), true)
    | none => (fsWrite fs xmpPath (.doc true allTags), true)

/-! ## Batch pipeline (`photo_tagger_gui.py`)

The worker state is split exactly as the source splits it:
`_process_photos` owns the loop cursor and progress notifications,
while `_process_single_photo` only touches counters, the disk
reachability cache and the two stores — it never writes the cursor or
the flags.  Progress notifications and the per-iteration trace are
ghost observations of the calls the loop makes. -/

/-- The `source_mode` radio value. -/
inductive SourceMode where
  | catalog : SourceMode
  | folder : SourceMode
deriving DecidableEq, Repr

/-- The `tagging_mode` radio value. -/
inductive TaggingMode where
  | auto : TaggingMode
  | targeted : TaggingMode
deriving DecidableEq, Repr

/-- The GUI configuration a run reads: source, destinations, model, mode,
mappings, and the tag-suffix settings. -/
structure Config where
  source_mode : SourceMode
  catalog_path : String
  folder_path : String
  selected_model : String
  write_to_catalog : Bool
  write_to_xmp : Bool
  tagging_mode : TaggingMode
  mappings : List (String × String)
  tag_suffix_enabled : Bool
  tag_suffix : String
deriving DecidableEq, Repr

/-- One element of the photo list built by `_get_photos_to_process`. -/
structure Photo where
  photo_id : Nat
  full_path : Option String
  filename : String
deriving DecidableEq, Repr

/-- External collaborators of a batch run: keyword-creation inputs, the
filesystem/decoding oracles, the connection-level preview state, the
`get_photo_path` catalog query, the deterministic tag generator for
both modes, and the fixed photo snapshot that
`_get_photos_to_process` returns. -/
structure BatchEnv where
  kw : KwEnv
  fs : FsEnv
  lr : LRState
  photo_path : Nat → Option String
  generateAuto : String → Img → List String
  detectTargeted : String → Img → String → String → Bool × String
  photos : List Photo

/-- The state `_process_single_photo` reads and writes: the result
counters, the per-run disk reachability cache, the catalog keyword
store, the sidecar store, and a ghost log of accesses to original photo
files. -/
structure Core where
  photos_analyzed : Nat
  photos_tagged : Nat
  stats_tags_written_catalog : Nat
  stats_tags_written_xmp : Nat
  stats_xmp_skipped_no_file : Nat
  disk_accessible_cache : List (String × Bool)
  db : Catalog
  xmpfs : XmpFs
  origReads : List String
deriving DecidableEq, Repr

/-- Mount-point derivation of `_process_single_photo`: a 3-segment prefix
under `/Volumes/`, a 4-segment prefix under `/media/`, the drive letter
for a `/. C:`-shaped second segment, else a 2-segment prefix. -/
def diskMountOf (p : String) : String :=
  let parts := pySplit p '/'
  if strStartsWith p "/Volumes/" then joinSep '/' (parts.take 3)
  else if strStartsWith p "/media/" then joinSep '/' (parts.take 4)
  else if 1 < parts.length ∧ parts.getD 0 "" = "" ∧ (parts.getD 1 "").length = 2
      ∧ strEndsWith (parts.getD 1 "") ":" then parts.getD 1 ""
  else joinSep '/' (parts.take 2)

/-- Cache lookup (`disk_mount in self.disk_accessible_cache`). -/
def cacheLookup (cache : List (String × Bool)) (m : String) : Option Bool :=
  (cache.find? (fun e => e.1 == m)).map Prod.snd

/-- `load_image_from_file`: probes `os.path.exists` then `Image.open`;
always recorded in the ghost log of original-file accesses. -/
def load_image_from_file (env : BatchEnv) (core : Core) (p : String) : Core × Option Img :=
  let core' := { core with origReads := core.origReads ++ [p] }
  if env.fs.fsExists p then (core', env.fs.openImage p) else (core', none)

/-- `TagSuffixManager.add_suffix` with `enabled=True` and the default
separator `"_"` (as `apply_suffix_to_tags` builds it). -/
def add_suffix (suffix tag : String) : String :=
  if tag = "" then tag
  else if strEndsWith tag ("_" ++ suffix) then tag
  else tag ++ "_" ++ suffix

/-- `_generate_tags_for_image`: auto or targeted generation, then the
optional suffix. -/
def generate_tags_for_image (env : BatchEnv) (cfg : Config) (img : Img) : List String :=
  let tags :=
    match cfg.tagging_mode with
    | .auto => env.generateAuto cfg.selected_model img
    | .targeted =>
      cfg.mappings.foldl (fun acc m =>
        let r := env.detectTargeted cfg.selected_model img m.1 m.2
        if r.1 ∧ r.2 ≠ "" then acc ++ [r.2] else acc) []
  if cfg.tag_suffix_enabled then
    if cfg.tag_suffix ≠ "" then tags.map (add_suffix cfg.tag_suffix) else tags
  else tags

/-- The write section of `_process_single_photo` in catalog mode: catalog
write, then sidecar write gated on the original file existing, with the
skip counter for unreachable/unresolvable originals. -/
def catalog_write_phase (env : BatchEnv) (cfg : Config) (core : Core) (photoId : Nat)
    (tags : List String) : Core :=
  let r1 :=
    if cfg.write_to_catalog then
      let r := add_tags env.kw FaultSpec.none core.db photoId tags
      if r.ok then
        let c := { core with db := r.db, stats_tags_written_catalog := core.stats_tags_written_catalog + 1 }
        (c, true)
      else ({ core with db := r.db }, false)
    else (core, false)
  let core₁ := r1.1
  let r2 :=
    if cfg.write_to_xmp then
      match env.photo_path photoId with
      | some p =>
        if env.fs.fsExists p then
          let wr := write_tags core₁.xmpfs p tags
          if wr.2 then
            let c := { core₁ with xmpfs := wr.1, stats_tags_written_xmp := core₁.stats_tags_written_xmp + 1 }
            (c, true)
          else ({ core₁ with xmpfs := wr.1 }, false)
        else
          ({ core₁ with stats_xmp_skipped_no_file := core₁.stats_xmp_skipped_no_file + 1 }, false)
      | none =>
        ({ core₁ with stats_xmp_skipped_no_file := core₁.stats_xmp_skipped_no_file + 1 }, false)
    else (core₁, false)
  if r1.2 || r2.2 then { r2.1 with photos_tagged := r2.1.photos_tagged + 1 } else r2.1

/-- The tail of `_process_single_photo` once the image is (maybe) loaded:
skip when unloadable, else count the analysis, generate tags, skip when
none, else write to the enabled destinations. -/
def tags_phase (env : BatchEnv) (cfg : Config) (core : Core) (photo : Photo)
    (image : Option Img) : Core :=
  match image with
  | none => core
  | some img =>
    let core₁ := { core with photos_analyzed := core.photos_analyzed + 1 }
    let tags := generate_tags_for_image env cfg img
    if tags.isEmpty then core₁
    else
      match cfg.source_mode with
      | .catalog => catalog_write_phase env cfg core₁ photo.photo_id tags
      | .folder =>
        if cfg.write_to_xmp then
          match photo.full_path with
          | some p =>
            let wr := write_tags core₁.xmpfs p tags
            if wr.2 then
              { core₁ with xmpfs := wr.1, stats_tags_written_xmp := core₁.stats_tags_written_xmp + 1, photos_tagged := core₁.photos_tagged + 1 }
            else { core₁ with xmpfs := wr.1 }
          | none => core₁
        else core₁

/-- `_process_single_photo`.  Catalog mode resolves a preview, else falls
back to the original file gated by the memoized disk reachability of
its mount point; folder mode opens the file directly (a raised
`Image.open` error is caught by the surrounding handler and skips the
photo). -/
def process_single_photo (env : BatchEnv) (cfg : Config) (core : Core) (photo : Photo) : Core :=
  match cfg.source_mode with
  | .catalog =>
    let photoId := photo.photo_id
    let r :=
      match get_smart_preview env.fs env.lr photoId with
      | some i => (core, some i)
      | none =>
        match photo.full_path with
        | some p =>
          if p ≠ "" then
            let mount := diskMountOf p
            let rc :=
              match cacheLookup core.disk_accessible_cache mount with
              | some b => (core, b)
              | none =>
                let b := env.fs.fsExists mount
                ({ core with
                   disk_accessible_cache := core.disk_accessible_cache ++ [(mount, b)] }, b)
            if rc.2 then load_image_from_file env rc.1 p
            else (rc.1, none)
          else (core, none)
        | none => (core, none)
    tags_phase env cfg r.1 photo r.2
  | .folder =>
    match photo.full_path with
    | none => core
    | some p =>
      let core₀ := { core with origReads := core.origReads ++ [p] }
      match (if env.fs.fsExists p then env.fs.openImage p else none) with
      | none => core₀
      | some img => tags_phase env cfg core₀ photo (some img)

/-- Worker-loop state: the cursor and total owned by `_process_photos`,
the `_process_single_photo` state, a ghost count of
`_update_progress` calls, and a ghost trace of the loop indices that
were processed (not skipped). -/
structure BatchSt where
  current_photo : Nat
  total_photos : Nat
  core : Core
  progressFires : Nat
  processedIdx : List Nat
deriving DecidableEq, Repr

/-- One `_update_progress` call (ghost observation). -/
def fireProgress (st : BatchSt) : BatchSt := { st with progressFires := st.progressFires + 1 }

/-- One non-skipped loop iteration at index `i`: set the cursor to `i+1`,
fire progress, process the photo. -/
def stepAt (env : BatchEnv) (cfg : Config) (i : Nat) (photo : Photo) (st : BatchSt) : BatchSt :=
  let st₁ := fireProgress
    { st with current_photo := i + 1, processedIdx := st.processedIdx ++ [i] }
  { st₁ with core := process_single_photo env cfg st₁.core photo }

/-- The `for i, photo in enumerate(photos)` loop of `_process_photos` with
both flags false throughout: resume-skip photos before the saved
cursor (still firing progress), process the rest. -/
def process_photos_loop (env : BatchEnv) (cfg : Config) :
    Nat → List Photo → BatchSt → BatchSt
  | _, [], st => st
  | i, photo :: rest, st =>
    if 0 < st.current_photo ∧ i < st.current_photo then
      process_photos_loop env cfg (i + 1) rest (fireProgress st)
    else
      process_photos_loop env cfg (i + 1) rest (stepAt env cfg i photo st)

/-- The same loop when `should_pause` is first observed at iteration
`pauseAt`: the loop saves the state and returns there. -/
def process_photos_loop_paused (env : BatchEnv) (cfg : Config) (pauseAt : Nat) :
    Nat → List Photo → BatchSt → BatchSt
  | _, [], st => st
  | i, photo :: rest, st =>
    if 0 < st.current_photo ∧ i < st.current_photo then
      process_photos_loop_paused env cfg pauseAt (i + 1) rest (fireProgress st)
    else if i = pauseAt then st
    else process_photos_loop_paused env cfg pauseAt (i + 1) rest (stepAt env cfg i photo st)

/-- The persisted batch-state document written by `_save_state`. -/
structure SavedState where
  version : String
  timestamp : String
  source_mode : SourceMode
  catalog_path : String
  folder_path : String
  selected_model : String
  write_to_catalog : Bool
  write_to_xmp : Bool
  tagging_mode : TaggingMode
  mappings : List (String × String)
  current_photo : Nat
  total_photos : Nat
  photos_analyzed : Nat
  photos_tagged : Nat
  stats_tags_written_catalog : Nat
  stats_tags_written_xmp : Nat
  stats_xmp_skipped_no_file : Nat
deriving DecidableEq, Repr

/-- `_save_state`: snapshot configuration, cursor, totals and counters. -/
def save_state (timestamp : String) (cfg : Config) (st : BatchSt) : SavedState :=
  { version := "1.3"
    timestamp := timestamp
    source_mode := cfg.source_mode
    catalog_path := cfg.catalog_path
    folder_path := cfg.folder_path
    selected_model := cfg.selected_model
    write_to_catalog := cfg.write_to_catalog
    write_to_xmp := cfg.write_to_xmp
    tagging_mode := cfg.tagging_mode
    mappings := cfg.mappings
    current_photo := st.current_photo
    total_photos := st.total_photos
    photos_analyzed := st.core.photos_analyzed
    photos_tagged := st.core.photos_tagged
    stats_tags_written_catalog := st.core.stats_tags_written_catalog
    stats_tags_written_xmp := st.core.stats_tags_written_xmp
    stats_xmp_skipped_no_file := st.core.stats_xmp_skipped_no_file }

/-- `_restore_state`: restore the configuration fields the snapshot holds
(the tag-suffix widgets are not part of the snapshot and keep their
current values), restore cursor/totals/counters into the session state
(whose stores and reachability cache live outside the snapshot), and
fire one progress update.  The ghost processed-trace starts fresh so
the resumed loop can be observed on its own. -/
def restore_state (s : SavedState) (cfg : Config) (sessionCore : Core) : Config × BatchSt :=
  ({ source_mode := s.source_mode
     catalog_path := s.catalog_path
     folder_path := s.folder_path
     selected_model := s.selected_model
     write_to_catalog := s.write_to_catalog
     write_to_xmp := s.write_to_xmp
     tagging_mode := s.tagging_mode
     mappings := s.mappings
     tag_suffix_enabled := cfg.tag_suffix_enabled
     tag_suffix := cfg.tag_suffix },
   { current_photo := s.current_photo
     total_photos := s.total_photos
     core := { sessionCore with
               photos_analyzed := s.photos_analyzed
               photos_tagged := s.photos_tagged
               stats_tags_written_catalog := s.stats_tags_written_catalog
               stats_tags_written_xmp := s.stats_tags_written_xmp
               stats_xmp_skipped_no_file := s.stats_xmp_skipped_no_file }
     progressFires := 1
     processedIdx := [] })

/-- Worker state at the start of a fresh run (`_start_processing` resets
every counter and the reachability cache; the stores hold whatever the
catalog and the sidecar directory hold). -/
def initCore (db : Catalog) (fs : XmpFs) : Core :=
  { photos_analyzed := 0
    photos_tagged := 0
    stats_tags_written_catalog := 0
    stats_tags_written_xmp := 0
    stats_xmp_skipped_no_file := 0
    disk_accessible_cache := []
    db := db
    xmpfs := fs
    origReads := [] }

/-- Loop state at the start of a fresh run, after `_process_photos` set
`total_photos` from the snapshot length. -/
def initBatchSt (core : Core) (total : Nat) : BatchSt :=
  { current_photo := 0
    total_photos := total
    core := core
    progressFires := 0
    processedIdx := [] }

/-- An uninterrupted run over the photo snapshot. -/
def run_batch (env : BatchEnv) (cfg : Config) (core : Core) : BatchSt :=
  process_photos_loop env cfg 0 env.photos (initBatchSt core env.photos.length)

/-- A run paused when the pause flag is observed at loop index `k`,
ending at the state `_save_state` snapshots. -/
def run_batch_paused (env : BatchEnv) (cfg : Config) (core : Core) (k : Nat) : BatchSt :=
  process_photos_loop_paused env cfg k 0 env.photos (initBatchSt core env.photos.length)

/-- Pause at index `k`, persist, restore, and run the loop again from the
restored cursor over the same snapshot. -/
def resume_after_pause (env : BatchEnv) (cfg : Config) (core : Core) (k : Nat)
    (timestamp : String) : Config × BatchSt :=
  let paused := run_batch_paused env cfg core k
  let saved := save_state timestamp cfg paused
  let r := restore_state saved cfg paused.core
  (r.1, process_photos_loop env r.1 0 env.photos r.2)

/-! ## Stop/resume control surface (`photo_tagger_gui.py`) -/

/-- Content of the persisted state file as `_load_state` sees it. -/
inductive StateFileContent where
  | corrupt : StateFileContent
  | valid (s : SavedState) : StateFileContent
deriving DecidableEq, Repr

/-- The application-level state the stop and resume buttons touch. -/
structure AppWorld where
  state_file : Option StateFileContent
  should_stop : Bool
  should_pause : Bool
  is_processing : Bool
deriving DecidableEq, Repr

/-- `_stop_processing` (confirmed): set the stop flag and delete the
persisted state file if present. -/
def stop_processing (w : AppWorld) : AppWorld :=
  { w with should_stop := true, state_file := none }

/-- `_load_state`: `None` when the file is absent or unparseable. -/
def load_state (w : AppWorld) : Option SavedState :=
  match w.state_file with
  | some (.valid s) => some s
  | some .corrupt => none
  | none => none

/-- Outcome of pressing RESUME. -/
inductive ResumeOutcome where
  | blocked (msg : String) : ResumeOutcome
  | resumed (s : SavedState) (w : AppWorld) : ResumeOutcome
deriving DecidableEq, Repr

/-- `_resume_processing`: a missing state file or an unloadable state is a
blocking error shown to the operator; only a loadable state starts the
worker again. -/
def resume_processing (w : AppWorld) : ResumeOutcome :=
  if w.state_file.isNone then .blocked "Aucun etat sauvegarde trouve"
  else
    match load_state w with
    | none => .blocked "Impossible de charger l etat sauvegarde"
    | some s =>
      .resumed s { w with is_processing := true, should_stop := false, should_pause := false }

/-! ## Proof infrastructure: invariants and straight-line runners -/

/-- The photo is linked to a keyword with a truthy name equal to the tag
up to case; exactly the situation in which the skip test of `add_tags`
(`tag.lower() in existing_tags_lower`) fires. -/
def LinkedCI (db : Catalog) (photoId : Nat) (tag : String) : Prop :=
  ∃ k, k ∈ db.keywords ∧ k.name ≠ "" ∧ (photoId, k.id_local) ∈ db.edges
    ∧ pyLower k.name = pyLower tag

/-- Processing the tag again is a no-op: either the case-insensitive skip
fires, or the exact-name lookup succeeds and the edge already exists. -/
def ReadyCI (db : Catalog) (photoId : Nat) (tag : String) : Prop :=
  LinkedCI db photoId tag
    ∨ ∃ k, findKeyword db tag = some k ∧ (photoId, k.id_local) ∈ db.edges

/-- The second catalog extends the first by appended keyword and edge
rows (all writes of `add_tags` are appends). -/
def catLe (db db' : Catalog) : Prop :=
  (∃ ks, db'.keywords = db.keywords ++ ks) ∧ (∃ es, db'.edges = db.edges ++ es)

/-- Straight-line worker loop with no skip test: processes every photo.
The fresh and resumed runs of `process_photos_loop` reduce to segments
of this runner. -/
def runSeg (env : BatchEnv) (cfg : Config) : Nat → List Photo → BatchSt → BatchSt
  | _, [], st => st
  | i, photo :: rest, st => runSeg env cfg (i + 1) rest (stepAt env cfg i photo st)

/-- Folding `_process_single_photo` over a photo segment; the
cursor-independent part of `runSeg`. -/
def coreFold (env : BatchEnv) (cfg : Config) : List Photo → Core → Core
  | [], c => c
  | photo :: rest, c => coreFold env cfg rest (process_single_photo env cfg c photo)

/-- Iterated progress notifications (the resume-skip phase). -/
def fireProgressN : Nat → BatchSt → BatchSt
  | 0, st => st
  | n + 1, st => fireProgressN n (fireProgress st)

/-! ## Concrete instances used by counterexamples and witnesses -/

/-- Deterministic UUID stream and timestamp for concrete runs. -/
def cxKwEnv : KwEnv :=
  { uuidOf := fun n => String.mk ('U' :: List.replicate n 'u'), now := "2026-01-01" }

/-- A catalog with no keywords and no edges. -/
def emptyCatalog : Catalog := { keywords := [], edges := [], uuidSeq := 0 }

/-- Fault schedule raising a storage error on the keyword `INSERT` for
tag `"A"` only. -/
def c2FaultSpec : FaultSpec := { FaultSpec.none with failKwInsert := fun t => t == "A" }

/-- Fault schedule raising a storage error on `BEGIN TRANSACTION`. -/
def c2BeginFaultSpec : FaultSpec := { FaultSpec.none with failBegin := true }

/-- Filesystem/decoding oracle for the preview-priority witness: every
path exists, every file opens, and blob `7` decodes to image `42`. -/
def c4Fs : FsEnv :=
  { fsExists := fun _ => true
    openImage := fun _ => some 99
    decodeBlob := fun b => if b == 7 then some 42 else none }

/-- Connection state for the preview-priority witness: photo 1 has a
pyramid blob `7` and a proxy UUID whose sharded file exists (and
would decode to image `99`). -/
def c4LR : LRState :=
  { pyramid_table := some "Adobe_previewCachePyramid"
    preview_table := some "Adobe_previewCache"
    catalog_path := some "/cat/catalog.lrcat"
    pyramidRows := [(1, 7)]
    previewRows := [(1, 5, 8)]
    dngProxy := [(1, "22AB-CD")] }

/-- Connection state with no preview source at all. -/
def emptyLR : LRState :=
  { pyramid_table := none, preview_table := none, catalog_path := none
    pyramidRows := [], previewRows := [], dngProxy := [] }

/-- A catalog-mode configuration with both destinations enabled and no
suffix. -/
def cxCfg : Config :=
  { source_mode := .catalog
    catalog_path := "/cat/catalog.lrcat"
    folder_path := ""
    selected_model := "qwen2-vl"
    write_to_catalog := true
    write_to_xmp := true
    tagging_mode := .auto
    mappings := []
    tag_suffix_enabled := false
    tag_suffix := "" }

/-- Environment for the unreachable-volume witness: no previews, nothing
on disk. -/
def c8Env : BatchEnv :=
  { kw := cxKwEnv
    fs := { fsExists := fun _ => false, openImage := fun _ => none, decodeBlob := fun _ => none }
    lr := emptyLR
    photo_path := fun _ => none
    generateAuto := fun _ _ => []
    detectTargeted := fun _ _ _ _ => (false, "")
    photos := [] }

/-- A photo whose original sits on the removable volume `/Volumes/DD3Photo`. -/
def c8Photo : Photo := { photo_id := 1, full_path := some "/Volumes/DD3Photo/x/img.jpg", filename := "img.jpg" }

/-- Worker state whose reachability cache already records the volume as
unreachable. -/
def c8St : BatchSt :=
  initBatchSt { initCore emptyCatalog [] with disk_accessible_cache := [("/Volumes/DD3Photo", false)] } 1

/-- Environment for the pause/resume witness: two catalog photos, no
previews, nothing on disk, generator returning no tags. -/
def c1Env : BatchEnv :=
  { c8Env with photos := [{ photo_id := 1, full_path := none, filename := "a.jpg" },
                          { photo_id := 2, full_path := none, filename := "b.jpg" }] }

/-! ## Claim C9: empty tag lists are successful no-ops -/

/-- C9: calling either tag writer with an empty tag list is a successful
no-op.  `add_tags(photo_id, [])` returns `True` with the catalog
untouched — and since the result holds for every fault schedule,
including one failing `BEGIN` and every later statement, no transaction
is ever opened.  `write_tags(photo_path, [])` returns `True` with the
sidecar store untouched, and the result being independent of the store
shows no sidecar is read, created, or modified. -/
theorem c9_empty_tag_list_noop :
    (∀ env spec db photoId, add_tags env spec db photoId [] = ⟨db, true, false, 0⟩)
      ∧ ∀ fs image_path, write_tags fs image_path [] = (fs, true) := by
  constructor
  · intro env spec db photoId
    rfl
  · intro fs image_path
    rfl

/-! ## Claim C7: stop discards the persisted state -/

/-- C7: after a stop request the persisted batch-state file no longer
exists, and a subsequent resume attempt reports a blocking error
instead of resuming processing. -/
theorem c7_stop_discards_state_blocks_resume :
    ∀ w : AppWorld, (stop_processing w).state_file = Option.none
      ∧ resume_processing (stop_processing w)
          = ResumeOutcome.blocked "Aucun etat sauvegarde trouve" := by
  intro w
  exact ⟨rfl, rfl⟩

/-! ## Claim C2: transactionality of `add_tags` -/

/-- C2 counterexample: with a storage error raised by the keyword
`INSERT` for tag `"A"`, the call `add_tags(1, ["A", "B"])` on an empty
catalog raises exactly one storage error, yet returns `True` and
commits the keyword and edge for `"B"` — the catalog is not left as it
was, contradicting the claim that any storage error rolls the whole
batch back and returns failure. -/
theorem c2_swallowed_error_commits_counterexample :
    (add_tags cxKwEnv c2FaultSpec emptyCatalog 1 ["A", "B"]).errors = 1
      ∧ (add_tags cxKwEnv c2FaultSpec emptyCatalog 1 ["A", "B"]).ok = true
      ∧ (add_tags cxKwEnv c2FaultSpec emptyCatalog 1 ["A", "B"]).db ≠ emptyCatalog := by
  refine ⟨by decide, by decide, by decide⟩

/-- C2 (amended): `add_tags` returns `False` exactly when a storage error
escapes to its own handler (`BEGIN`, the edge `SELECT`/`INSERT`, or
`COMMIT`), and in that case the rollback leaves the catalog exactly as
it was before the call; storage errors inside keyword find-or-create
(and the pre-transaction existing-tags read) are swallowed instead. -/
theorem c2_escaped_error_rolls_back :
    ∀ env spec db photoId tags,
      ((add_tags env spec db photoId tags).ok = false
          ↔ (add_tags env spec db photoId tags).escaped = true)
      ∧ ((add_tags env spec db photoId tags).ok = false
          → (add_tags env spec db photoId tags).db = db) := by
  intro env spec db photoId tags
  unfold add_tags
  by_cases he : tags.isEmpty
  · simp [he]
  · simp only [he, Bool.false_eq_true, if_false]
    cases hb : spec.failBegin
    · simp only [Bool.false_eq_true, if_false]
      rcases hl : add_tags_loop env spec photoId
          ((if spec.failExisting then [] else get_existing_tags db photoId).map pyLower) tags db
          (if spec.failExisting then 1 else 0) with ⟨esc, db', errs⟩
      cases esc
      · cases hc : spec.failCommit <;> simp
      · simp
    · simp

/-- C2 witness: a `BEGIN` failure on a non-empty tag list returns `False`
and leaves the catalog unchanged. -/
theorem c2_escaped_error_rolls_back_witness :
    (add_tags cxKwEnv c2BeginFaultSpec emptyCatalog 1 ["A"]).ok = false
      ∧ (add_tags cxKwEnv c2BeginFaultSpec emptyCatalog 1 ["A"]).db = emptyCatalog :=
  ⟨by decide,
   (c2_escaped_error_rolls_back cxKwEnv c2BeginFaultSpec emptyCatalog 1 ["A"]).2 (by decide)⟩

/-! ## Claim C4: preview resolution priority -/

/-- C4: `get_smart_preview` returns exactly the first success among the
pyramid-table blob, the UUID-sharded file, and the
largest-dimension standard-preview row, in that fixed order (each
strategy's decode failure yields `none` there, which is non-fatal for
the earlier strategies); in particular a photo with a decodable
pyramid blob resolves to that blob regardless of any sharded file. -/
theorem c4_preview_resolution_priority :
    ∀ fs m photoId,
      (get_smart_preview fs m photoId
          = ((get_smart_preview_sql fs m photoId).or
              ((get_smart_preview_lrdata fs m photoId).or (get_standard_preview fs m photoId))))
      ∧ ∀ b i, m.pyramid_table.isSome = true
          → lookupBlob m.pyramidRows photoId = some b
          → fs.decodeBlob b = some i
          → get_smart_preview fs m photoId = some i := by
  intro fs m photoId
  constructor
  · unfold get_smart_preview get_smart_preview_pyramid
    cases hs : get_smart_preview_sql fs m photoId <;>
      cases hl : get_smart_preview_lrdata fs m photoId <;> simp
  · intro b i ht hb hd
    have hs : get_smart_preview_sql fs m photoId = some i := by
      unfold get_smart_preview_sql
      rcases hp : m.pyramid_table with _ | t
      · rw [hp] at ht
        simp at ht
      · rw [hb]
        exact hd
    unfold get_smart_preview get_smart_preview_pyramid
    rw [hs]

/-- C4 witness: photo 1 of `c4LR` has pyramid blob `7` decoding to image
`42`, while its sharded `.lrdata` file also exists (every path exists
in `c4Fs` and would open as image `99`); resolution returns `42`. -/
theorem c4_preview_resolution_priority_witness :
    c4LR.pyramid_table.isSome = true
      ∧ lookupBlob c4LR.pyramidRows 1 = some 7
      ∧ c4Fs.decodeBlob 7 = some 42
      ∧ get_smart_preview c4Fs c4LR 1 = some 42 :=
  ⟨rfl, rfl, rfl, (c4_preview_resolution_priority c4Fs c4LR 1).2 7 42 rfl rfl rfl⟩

/-! ## Lemmas about stripping and the sidecar filesystem -/

/-- The element surviving at the head of `dropWhile` fails the predicate. -/
theorem dropWhile_head_not (p : α → Bool) :
    ∀ (l : List α) (a : α) (t : List α), l.dropWhile p = a :: t → p a = false := by
  intro l
  induction l with
  | nil => intro a t h; cases h
  | cons x xs ih =>
    intro a t h
    rw [List.dropWhile_cons] at h
    by_cases hx : p x
    · rw [if_pos hx] at h
      exact ih a t h
    · rw [if_neg hx] at h
      cases h
      exact Bool.of_not_eq_true hx

/-- `dropWhile` only removes from the front, so a nonempty result keeps
the original last element. -/
theorem dropWhile_getLast? (p : α → Bool) :
    ∀ l : List α, l.dropWhile p ≠ [] → (l.dropWhile p).getLast? = l.getLast? := by
  intro l
  induction l with
  | nil => intro h; cases h rfl
  | cons x xs ih =>
    intro h
    rw [List.dropWhile_cons]
    by_cases hx : p x
    · rw [List.dropWhile_cons, if_pos hx] at h
      have hxs : xs ≠ [] := by
        intro he
        rw [he] at h
        exact h rfl
      rcases xs with _ | ⟨y, ys⟩
      · exact absurd rfl hxs
      · rw [if_pos hx, ih h, List.getLast?_cons_cons]
    · rw [if_neg hx]

/-- A list whose head fails the predicate is untouched by `dropWhile`. -/
theorem dropWhile_of_head_not (p : α → Bool) (a : α) (t : List α) (ha : p a = false) :
    (a :: t).dropWhile p = a :: t := by
  rw [List.dropWhile_cons, if_neg]
  simp [ha]

/-- Head-of-`dropWhile` characterization through `head?`. -/
theorem dropWhile_head?_not (p : α → Bool) (l : List α) (a : α)
    (h : (l.dropWhile p).head? = some a) : p a = false := by
  rcases hd : l.dropWhile p with _ | ⟨x, t⟩
  · rw [hd] at h
    cases h
  · rw [hd, List.head?_cons] at h
    rw [← Option.some.inj h]
    exact dropWhile_head_not p l x t hd

/-- A list whose head (if any) fails the predicate is untouched by
`dropWhile`. -/
theorem dropWhile_eq_self_of_head (p : α → Bool) (l : List α)
    (h : ∀ a, l.head? = some a → p a = false) : l.dropWhile p = l := by
  rcases l with _ | ⟨x, t⟩
  · rfl
  · exact dropWhile_of_head_not p x t (h x rfl)

/-- Stripping is idempotent at the character-list level. -/
theorem stripChars_idem (l : List Char) : stripChars (stripChars l) = stripChars l := by
  unfold stripChars
  have h1 : ((l.dropWhile isPyWS).reverse.dropWhile isPyWS).reverse.dropWhile isPyWS
      = ((l.dropWhile isPyWS).reverse.dropWhile isPyWS).reverse := by
    apply dropWhile_eq_self_of_head
    intro a ha
    rw [List.head?_reverse] at ha
    have hne : (l.dropWhile isPyWS).reverse.dropWhile isPyWS ≠ [] := by
      intro he
      rw [he] at ha
      cases ha
    rw [dropWhile_getLast? isPyWS _ hne, List.getLast?_reverse] at ha
    exact dropWhile_head?_not isPyWS l a ha
  have h2 : ((l.dropWhile isPyWS).reverse.dropWhile isPyWS).dropWhile isPyWS
      = (l.dropWhile isPyWS).reverse.dropWhile isPyWS := by
    apply dropWhile_eq_self_of_head
    intro a ha
    exact dropWhile_head?_not isPyWS _ a ha
  rw [h1, List.reverse_reverse, h2]

/-- Stripping a string is idempotent. -/
theorem pstrip_idem (s : String) : pstrip (pstrip s) = pstrip s :=
  congrArg String.mk (stripChars_idem s.data)

/-- Looking up after filtering out a different key changes nothing. -/
theorem find?_filter_ne (p q : String) (h : ¬ (q = p)) :
    ∀ fs : XmpFs, (fs.filter (fun e => !(e.1 == p))).find? (fun e => e.1 == q)
      = fs.find? (fun e => e.1 == q) := by
  intro fs
  induction fs with
  | nil => rfl
  | cons e t ih =>
    by_cases he : e.1 = p
    · have h1 : (e.1 == p) = true := by simp [he]
      have h2 : (e.1 == q) = false := by simp [he]; intro hq; exact h hq.symm
      simp [List.filter_cons, h1, List.find?_cons, h2, ih]
    · have h1 : (e.1 == p) = false := by simp [he]
      by_cases hq : e.1 = q
      · have h2 : (e.1 == q) = true := by simp [hq]
        simp [List.filter_cons, h1, List.find?_cons, h2]
      · have h2 : (e.1 == q) = false := by simp [hq]
        simp [List.filter_cons, h1, List.find?_cons, h2, ih]

/-- Characterization of lookup after an overwrite. -/
theorem fsLookup_fsWrite (fs : XmpFs) (p : String) (f : XmpFile) (q : String) :
    fsLookup (fsWrite fs p f) q = if q = p then some f else fsLookup fs q := by
  unfold fsLookup fsWrite
  by_cases h : q = p
  · have h1 : (p == q) = true := by simp [h]
    simp [List.find?_cons, h1, h]
  · have h1 : (p == q) = false := by
      simp
      intro hq
      exact h hq.symm
    simp only [List.find?_cons, h1, if_neg h]
    rw [find?_filter_ne p q h fs]

/-! ## Claim C10: `read_tags` strips and omits empty entries -/

/-- C10: every string returned by `read_tags` is already stripped of
leading and trailing whitespace, and sidecar entries with no text
content are omitted; consequently a tag written with surrounding
whitespace (here `" A "`, stored next to an empty entry) does not read
back identical to what was written. -/
theorem c10_read_tags_stripped :
    (∀ fs image_path s, s ∈ read_tags fs image_path → pstrip s = s)
      ∧ read_tags (write_tags [] "/d/img.jpg" [" A ", ""]).1 "/d/img.jpg" = ["A"]
      ∧ " A " ∉ read_tags (write_tags [] "/d/img.jpg" [" A ", ""]).1 "/d/img.jpg" := by
  refine ⟨?_, by decide, by decide⟩
  intro fs image_path s hs
  unfold read_tags at hs
  rcases hl : fsLookup fs (get_xmp_path image_path) with _ | fl
  · rw [hl] at hs
    cases hs
  · rw [hl] at hs
    rcases fl with _ | ⟨hd, entries⟩
    · cases hs
    · rw [List.mem_filterMap] at hs
      rcases hs with ⟨t, _, ht⟩
      by_cases hte : t = ""
      · rw [if_pos hte] at ht
        cases ht
      · rw [if_neg hte] at ht
        have : s = pstrip t := (Option.some.inj ht).symm
        rw [this]
        exact pstrip_idem t

/-- C10 witness: `"A"` is among the tags read back from a sidecar written
with `" A "`, and it is stripped. -/
theorem c10_read_tags_stripped_witness :
    "A" ∈ read_tags (write_tags [] "/d/img.jpg" [" A ", ""]).1 "/d/img.jpg"
      ∧ pstrip "A" = "A" :=
  ⟨by decide,
   c10_read_tags_stripped.1 (write_tags [] "/d/img.jpg" [" A ", ""]).1 "/d/img.jpg" "A"
     (by decide)⟩

/-! ## Claim C5: sidecar round trip -/

/-- C5: for a photo path with no existing sidecar, `write_tags(path,
["A","B"])` then `read_tags(path)` returns `["A","B"]`; a subsequent
`write_tags(path, ["B","C"])` then `read_tags(path)` returns
`["A","B","C"]` — each write succeeds and appends only the genuinely
new tags, deduplicated by exact string comparison, preserving order. -/
theorem c5_sidecar_round_trip :
    ∀ fs image_path, fsLookup fs (get_xmp_path image_path) = Option.none →
      write_tags fs image_path ["A", "B"]
          = (fsWrite fs (get_xmp_path image_path) (XmpFile.doc true ["A", "B"]), true)
      ∧ read_tags (write_tags fs image_path ["A", "B"]).1 image_path = ["A", "B"]
      ∧ write_tags (write_tags fs image_path ["A", "B"]).1 image_path ["B", "C"]
          = (fsWrite (write_tags fs image_path ["A", "B"]).1 (get_xmp_path image_path)
              (XmpFile.doc true ["A", "B", "C"]), true)
      ∧ read_tags (write_tags (write_tags fs image_path ["A", "B"]).1 image_path ["B", "C"]).1
          image_path = ["A", "B", "C"] := by
  intro fs ip h
  have hread0 : read_tags fs ip = [] := by
    unfold read_tags
    rw [h]
  have hw1 : write_tags fs ip ["A", "B"]
      = (fsWrite fs (get_xmp_path ip) (XmpFile.doc true ["A", "B"]), true) := by
    simp [write_tags, hread0, h]
  have hl1 : fsLookup (write_tags fs ip ["A", "B"]).1 (get_xmp_path ip)
      = some (XmpFile.doc true ["A", "B"]) := by
    rw [hw1, fsLookup_fsWrite, if_pos rfl]
  have hread1 : read_tags (write_tags fs ip ["A", "B"]).1 ip = ["A", "B"] := by
    unfold read_tags
    rw [hl1]
    decide
  have hw2 : write_tags (write_tags fs ip ["A", "B"]).1 ip ["B", "C"]
      = (fsWrite (write_tags fs ip ["A", "B"]).1 (get_xmp_path ip)
          (XmpFile.doc true ["A", "B", "C"]), true) := by
    generalize hfs1 : (write_tags fs ip ["A", "B"]).1 = fs₁ at hread1 hl1 ⊢
    simp [write_tags, hread1, hl1]
  have hl2 : fsLookup (write_tags (write_tags fs ip ["A", "B"]).1 ip ["B", "C"]).1
      (get_xmp_path ip) = some (XmpFile.doc true ["A", "B", "C"]) := by
    rw [hw2, fsLookup_fsWrite, if_pos rfl]
  have hread2 : read_tags (write_tags (write_tags fs ip ["A", "B"]).1 ip ["B", "C"]).1 ip
      = ["A", "B", "C"] := by
    unfold read_tags
    rw [hl2]
    decide
  exact ⟨hw1, hread1, hw2, hread2⟩

/-- C5 witness: the round trip on the empty sidecar store at
`/d/img.jpg`. -/
theorem c5_sidecar_round_trip_witness :
    fsLookup ([] : XmpFs) (get_xmp_path "/d/img.jpg") = Option.none
      ∧ read_tags (write_tags [] "/d/img.jpg" ["A", "B"]).1 "/d/img.jpg" = ["A", "B"]
      ∧ read_tags
          (write_tags (write_tags [] "/d/img.jpg" ["A", "B"]).1 "/d/img.jpg" ["B", "C"]).1
          "/d/img.jpg" = ["A", "B", "C"] :=
  ⟨rfl, (c5_sidecar_round_trip [] "/d/img.jpg" rfl).2.1,
   (c5_sidecar_round_trip [] "/d/img.jpg" rfl).2.2.2⟩

/-! ## Claim C8: unreachable-volume skip -/

/-- C8: in catalog mode, when a photo has no preview and the mount point
derived from its original path (`diskMountOf`, with the 3-segment
`/Volumes`, 4-segment `/media`, drive-letter and default 2-segment
rules) is cached as unreachable, `_process_single_photo` leaves its
whole state unchanged — in particular the original file is never
opened or probed (the access log is part of the state) and no counter
moves — while the loop iteration still counts the photo into the
cursor and fires its progress notification. -/
theorem c8_unreachable_volume_skip :
    ∀ env cfg (st : BatchSt) photo p i,
      cfg.source_mode = SourceMode.catalog →
      get_smart_preview env.fs env.lr photo.photo_id = Option.none →
      photo.full_path = some p →
      p ≠ "" →
      cacheLookup st.core.disk_accessible_cache (diskMountOf p) = some false →
      process_single_photo env cfg st.core photo = st.core
      ∧ stepAt env cfg i photo st
          = { st with current_photo := i + 1, progressFires := st.progressFires + 1, processedIdx := st.processedIdx ++ [i] } := by
  intro env cfg st photo p i hm hprev hf hpne hc
  have hcore : ∀ c : Core, cacheLookup c.disk_accessible_cache (diskMountOf p) = some false →
      process_single_photo env cfg c photo = c := by
    intro c hcc
    unfold process_single_photo
    simp only [hm, hprev, hf, hcc]
    rw [if_pos hpne]
    simp only [Bool.false_eq_true, if_false]
    rfl
  refine ⟨hcore st.core hc, ?_⟩
  unfold stepAt fireProgress
  simp [hcore st.core hc]

/-- C8 witness: photo 1 with original on `/Volumes/DD3Photo`, no preview
anywhere, and the volume cached unreachable. -/
theorem c8_unreachable_volume_skip_witness :
    (cxCfg.source_mode = SourceMode.catalog
        ∧ get_smart_preview c8Env.fs c8Env.lr c8Photo.photo_id = Option.none
        ∧ c8Photo.full_path = some "/Volumes/DD3Photo/x/img.jpg"
        ∧ "/Volumes/DD3Photo/x/img.jpg" ≠ ""
        ∧ cacheLookup c8St.core.disk_accessible_cache (diskMountOf "/Volumes/DD3Photo/x/img.jpg")
            = some false)
      ∧ process_single_photo c8Env cxCfg c8St.core c8Photo = c8St.core :=
  ⟨⟨rfl, rfl, rfl, by decide, by decide⟩,
   (c8_unreachable_volume_skip c8Env cxCfg c8St c8Photo "/Volumes/DD3Photo/x/img.jpg" 0
       rfl rfl rfl (by decide) (by decide)).1⟩

/-! ## Lemmas about `get_existing_tags` and catalog growth -/

/-- Membership in an insertion-sort insert. -/
theorem mem_insertSorted (x a : String) :
    ∀ l : List String, a ∈ insertSorted x l ↔ a = x ∨ a ∈ l := by
  intro l
  induction l with
  | nil => simp [insertSorted]
  | cons y ys ih =>
    unfold insertSorted
    by_cases hle : charsLe x.data y.data
    · simp [hle, List.mem_cons]
    · simp only [hle, Bool.false_eq_true, if_false, List.mem_cons, ih]
      tauto

/-- Sorting preserves membership. -/
theorem mem_sortStrings (a : String) : ∀ l : List String, a ∈ sortStrings l ↔ a ∈ l := by
  intro l
  induction l with
  | nil => simp [sortStrings]
  | cons y ys ih =>
    unfold sortStrings at ih ⊢
    rw [List.foldr_cons, mem_insertSorted, ih, List.mem_cons]

/-- Membership in the `DISTINCT` pass. -/
theorem mem_dedupKeepFirst (a : String) :
    ∀ (l seen : List String), a ∈ dedupKeepFirst seen l ↔ a ∈ l ∧ a ∉ seen := by
  intro l
  induction l with
  | nil => simp [dedupKeepFirst]
  | cons x xs ih =>
    intro seen
    unfold dedupKeepFirst
    by_cases hx : x ∈ seen
    · rw [if_pos hx, ih seen, List.mem_cons]
      constructor
      · rintro ⟨h1, h2⟩
        exact ⟨Or.inr h1, h2⟩
      · rintro ⟨h1 | h1, h2⟩
        · rw [h1] at h2
          exact absurd hx h2
        · exact ⟨h1, h2⟩
    · rw [if_neg hx, List.mem_cons, List.mem_cons, ih (x :: seen)]
      by_cases hax : a = x
      · simp [hax, hx]
      · simp only [hax, false_or, List.mem_cons]

/-- Membership in the keyword-photo join. -/
theorem mem_linkedKeywords (db : Catalog) (photoId : Nat) (k : Keyword) :
    k ∈ linkedKeywords db photoId ↔ k ∈ db.keywords ∧ (photoId, k.id_local) ∈ db.edges := by
  unfold linkedKeywords
  rw [List.mem_filter]
  simp

/-- Membership characterization of `get_existing_tags`. -/
theorem mem_get_existing_tags (db : Catalog) (photoId : Nat) (s : String) :
    s ∈ get_existing_tags db photoId
      ↔ s ≠ "" ∧ ∃ k, k ∈ db.keywords ∧ k.name = s ∧ (photoId, k.id_local) ∈ db.edges := by
  unfold get_existing_tags
  rw [List.mem_filter, mem_sortStrings, mem_dedupKeepFirst, List.mem_map]
  constructor
  · rintro ⟨⟨⟨k, hk, hname⟩, -⟩, hne⟩
    refine ⟨by simpa using hne, k, ?_, hname, ?_⟩
    · exact (mem_linkedKeywords db photoId k).1 hk |>.1
    · exact (mem_linkedKeywords db photoId k).1 hk |>.2
  · rintro ⟨hne, k, hk, hname, he⟩
    refine ⟨⟨⟨k, (mem_linkedKeywords db photoId k).2 ⟨hk, he⟩, hname⟩, List.not_mem_nil s⟩, ?_⟩
    simpa using hne

/-- The case-insensitive skip test of `add_tags` fires exactly when the
photo is linked to a truthy-named case-variant keyword. -/
theorem pyLower_mem_existing (db : Catalog) (photoId : Nat) (t : String) :
    pyLower t ∈ (get_existing_tags db photoId).map pyLower ↔ LinkedCI db photoId t := by
  rw [List.mem_map]
  constructor
  · rintro ⟨s, hs, hlow⟩
    rcases (mem_get_existing_tags db photoId s).1 hs with ⟨hne, k, hk, hname, he⟩
    exact ⟨k, hk, by rw [hname]; exact hne, he, by rw [hname, hlow]⟩
  · rintro ⟨k, hk, hne, he, hlow⟩
    exact ⟨k.name, (mem_get_existing_tags db photoId k.name).2 ⟨hne, k, hk, rfl, he⟩, hlow⟩

/-- `catLe` is reflexive. -/
theorem catLe_refl (db : Catalog) : catLe db db :=
  ⟨⟨[], (List.append_nil _).symm⟩, ⟨[], (List.append_nil _).symm⟩⟩

/-- `catLe` is transitive. -/
theorem catLe_trans {db₁ db₂ db₃ : Catalog} (h1 : catLe db₁ db₂) (h2 : catLe db₂ db₃) :
    catLe db₁ db₃ := by
  rcases h1 with ⟨⟨ks1, hk1⟩, ⟨es1, he1⟩⟩
  rcases h2 with ⟨⟨ks2, hk2⟩, ⟨es2, he2⟩⟩
  exact ⟨⟨ks1 ++ ks2, by rw [hk2, hk1, List.append_assoc]⟩,
         ⟨es1 ++ es2, by rw [he2, he1, List.append_assoc]⟩⟩

/-- Keyword membership is monotone under catalog growth. -/
theorem mem_keywords_mono {db db' : Catalog} (h : catLe db db') {k : Keyword}
    (hk : k ∈ db.keywords) : k ∈ db'.keywords := by
  rcases h with ⟨⟨ks, hks⟩, -⟩
  rw [hks]
  exact List.mem_append_left ks hk

/-- Edge membership is monotone under catalog growth. -/
theorem mem_edges_mono {db db' : Catalog} (h : catLe db db') {e : Nat × Nat}
    (he : e ∈ db.edges) : e ∈ db'.edges := by
  rcases h with ⟨-, ⟨es, hes⟩⟩
  rw [hes]
  exact List.mem_append_left es he

/-- A successful exact-name lookup is stable under catalog growth (the
first matching row of an append-only table does not change). -/
theorem findKeyword_mono {db db' : Catalog} (h : catLe db db') {t : String} {k : Keyword}
    (hf : findKeyword db t = some k) : findKeyword db' t = some k := by
  rcases h with ⟨⟨ks, hks⟩, -⟩
  unfold findKeyword at hf ⊢
  rw [hks, List.find?_append, hf]
  rfl

/-- `LinkedCI` is monotone under catalog growth. -/
theorem LinkedCI_mono {db db' : Catalog} (h : catLe db db') {photoId : Nat} {t : String}
    (hl : LinkedCI db photoId t) : LinkedCI db' photoId t := by
  rcases hl with ⟨k, hk, hne, he, hlow⟩
  exact ⟨k, mem_keywords_mono h hk, hne, mem_edges_mono h he, hlow⟩

/-- `ReadyCI` is monotone under catalog growth. -/
theorem ReadyCI_mono {db db' : Catalog} (h : catLe db db') {photoId : Nat} {t : String}
    (hr : ReadyCI db photoId t) : ReadyCI db' photoId t := by
  rcases hr with hl | ⟨k, hf, he⟩
  · exact Or.inl (LinkedCI_mono h hl)
  · exact Or.inr ⟨k, findKeyword_mono h hf, mem_edges_mono h he⟩

/-! ## Fault-free behaviour of `_get_or_create_keyword` and the tag loop -/

/-- Fault-free `failExisting`. -/
@[simp] theorem none_failExisting : FaultSpec.none.failExisting = false := rfl

/-- Fault-free `failBegin`. -/
@[simp] theorem none_failBegin : FaultSpec.none.failBegin = false := rfl

/-- Fault-free `failCommit`. -/
@[simp] theorem none_failCommit : FaultSpec.none.failCommit = false := rfl

/-- Fault-free `failKwLookup`. -/
@[simp] theorem none_failKwLookup (t : String) : FaultSpec.none.failKwLookup t = false := rfl

/-- Fault-free `failKwMax`. -/
@[simp] theorem none_failKwMax (t : String) : FaultSpec.none.failKwMax t = false := rfl

/-- Fault-free `failKwInsert`. -/
@[simp] theorem none_failKwInsert (t : String) : FaultSpec.none.failKwInsert t = false := rfl

/-- Fault-free `failEdgeSelect`. -/
@[simp] theorem none_failEdgeSelect (t : String) : FaultSpec.none.failEdgeSelect t = false := rfl

/-- Fault-free `failEdgeInsert`. -/
@[simp] theorem none_failEdgeInsert (t : String) : FaultSpec.none.failEdgeInsert t = false := rfl

/-- A successful lookup short-circuits keyword creation. -/
theorem goc_found (env : KwEnv) (db : Catalog) (t : String) (k : Keyword)
    (hf : findKeyword db t = some k) :
    get_or_create_keyword env FaultSpec.none db t = (db, some k.id_local, 0) := by
  unfold get_or_create_keyword
  simp only [none_failKwLookup, Bool.false_eq_true, if_false]
  rw [hf]

/-- The name of a keyword found by exact-name lookup. -/
theorem findKeyword_name {db : Catalog} {t : String} {k : Keyword}
    (hf : findKeyword db t = some k) : k.name = t := by
  unfold findKeyword at hf
  have := List.find?_some hf
  simpa using this

/-- A found keyword is a row of the table. -/
theorem findKeyword_mem {db : Catalog} {t : String} {k : Keyword}
    (hf : findKeyword db t = some k) : k ∈ db.keywords :=
  List.mem_of_find?_eq_some hf

/-- Adding one edge row extends the catalog. -/
theorem catLe_addEdge (db : Catalog) (x : Nat × Nat) :
    catLe db { db with edges := db.edges ++ [x] } :=
  ⟨⟨[], (List.append_nil _).symm⟩, ⟨[x], rfl⟩⟩

/-- Fault-free find-or-create always yields a keyword id, extends the
catalog by at most the created row, and afterwards the exact-name
lookup finds a row carrying that id. -/
theorem goc_spec (env : KwEnv) (db : Catalog) (t : String) :
    ∃ db' k, get_or_create_keyword env FaultSpec.none db t = (db', some k.id_local, 0)
      ∧ catLe db db' ∧ findKeyword db' t = some k := by
  cases hf : findKeyword db t with
  | some k => exact ⟨db, k, goc_found env db t k hf, catLe_refl db, hf⟩
  | none =>
    refine ⟨{ db with
              keywords := db.keywords ++ [⟨(db.keywords.map Keyword.id_local).foldl Nat.max 0 + 1,
                env.uuidOf db.uuidSeq, t, pyLower t, env.now, "/" ++ t⟩]
              uuidSeq := db.uuidSeq + 1 },
            ⟨(db.keywords.map Keyword.id_local).foldl Nat.max 0 + 1,
              env.uuidOf db.uuidSeq, t, pyLower t, env.now, "/" ++ t⟩,
            ?_, ⟨⟨_, rfl⟩, ⟨[], (List.append_nil _).symm⟩⟩, ?_⟩
    · unfold get_or_create_keyword
      simp only [none_failKwLookup, none_failKwMax, none_failKwInsert, Bool.false_eq_true,
        if_false]
      rw [hf]
    · unfold findKeyword at hf ⊢
      rw [List.find?_append, hf]
      simp

/-- The fault-free tag loop never escapes, never counts an error, and
only extends the catalog. -/
theorem loop_none_shape (env : KwEnv) (photoId : Nat) (exL : List String) :
    ∀ (ts : List String) (db : Catalog) (e : Nat),
      ∃ db', add_tags_loop env FaultSpec.none photoId exL ts db e = (false, db', e)
        ∧ catLe db db' := by
  intro ts
  induction ts with
  | nil => exact fun db e => ⟨db, rfl, catLe_refl db⟩
  | cons t ts ih =>
    intro db e
    unfold add_tags_loop
    by_cases hmem : pyLower t ∈ exL
    · rw [if_pos hmem]
      exact ih db e
    · rw [if_neg hmem]
      rcases goc_spec env db t with ⟨db₁, k, hg, hle, -⟩
      rw [hg]
      simp only [none_failEdgeSelect, none_failEdgeInsert, Bool.false_eq_true, if_false,
        Nat.add_zero]
      by_cases he : (photoId, k.id_local) ∈ db₁.edges
      · rw [if_pos he]
        rcases ih db₁ e with ⟨db', hl, hle₁⟩
        exact ⟨db', hl, catLe_trans hle hle₁⟩
      · rw [if_neg he]
        rcases ih { db₁ with edges := db₁.edges ++ [(photoId, k.id_local)] } e with ⟨db', hl, hle₁⟩
        exact ⟨db', hl, catLe_trans hle (catLe_trans (catLe_addEdge db₁ _) hle₁)⟩

/-- After the fault-free tag loop, every tag of the list is `ReadyCI` in
the resulting catalog, provided the skip list faithfully reflects the
starting catalog. -/
theorem loop_none_post (env : KwEnv) (photoId : Nat) (exL : List String) :
    ∀ (ts : List String) (db : Catalog) (e : Nat),
      (∀ s, pyLower s ∈ exL → LinkedCI db photoId s) →
      ∀ t, t ∈ ts →
        ReadyCI (add_tags_loop env FaultSpec.none photoId exL ts db e).2.1 photoId t := by
  intro ts
  induction ts with
  | nil => intro db e hH t ht; cases ht
  | cons t₀ ts ih =>
    intro db e hH t ht
    unfold add_tags_loop
    by_cases hmem : pyLower t₀ ∈ exL
    · rw [if_pos hmem]
      rcases List.mem_cons.1 ht with rfl | ht'
      · rcases loop_none_shape env photoId exL ts db e with ⟨db', hl, hle⟩
        rw [hl]
        exact Or.inl (LinkedCI_mono hle (hH t hmem))
      · exact ih db e hH t ht'
    · rw [if_neg hmem]
      rcases goc_spec env db t₀ with ⟨db₁, k, hg, hle, hfk⟩
      rw [hg]
      simp only [none_failEdgeSelect, none_failEdgeInsert, Bool.false_eq_true, if_false,
        Nat.add_zero]
      have hH₁ : ∀ s, pyLower s ∈ exL → LinkedCI db₁ photoId s :=
        fun s hs => LinkedCI_mono hle (hH s hs)
      by_cases he : (photoId, k.id_local) ∈ db₁.edges
      · rw [if_pos he]
        rcases List.mem_cons.1 ht with rfl | ht'
        · rcases loop_none_shape env photoId exL ts db₁ e with ⟨db', hl, hle₁⟩
          rw [hl]
          exact ReadyCI_mono hle₁ (Or.inr ⟨k, hfk, he⟩)
        · exact ih db₁ e hH₁ t ht'
      · rw [if_neg he]
        have hle₂ : catLe db₁ { db₁ with edges := db₁.edges ++ [(photoId, k.id_local)] } :=
          catLe_addEdge db₁ _
        have hH₂ : ∀ s, pyLower s ∈ exL
            → LinkedCI { db₁ with edges := db₁.edges ++ [(photoId, k.id_local)] } photoId s :=
          fun s hs => LinkedCI_mono hle₂ (hH₁ s hs)
        rcases List.mem_cons.1 ht with rfl | ht'
        · rcases loop_none_shape env photoId exL ts
              { db₁ with edges := db₁.edges ++ [(photoId, k.id_local)] } e with ⟨db', hl, hle₃⟩
          rw [hl]
          refine ReadyCI_mono hle₃ (Or.inr ⟨k, findKeyword_mono hle₂ hfk, ?_⟩)
          exact List.mem_append_right _ (List.mem_singleton.2 rfl)
        · exact ih _ e hH₂ t ht'

/-- The fault-free tag loop is a complete no-op when every tag is already
`ReadyCI` and the skip list is the one computed from the same catalog. -/
theorem loop_none_noop (env : KwEnv) (photoId : Nat) :
    ∀ (ts : List String) (db : Catalog) (e : Nat),
      (∀ t, t ∈ ts → ReadyCI db photoId t) →
      add_tags_loop env FaultSpec.none photoId ((get_existing_tags db photoId).map pyLower)
        ts db e = (false, db, e) := by
  intro ts
  induction ts with
  | nil => intro db e _; rfl
  | cons t ts ih =>
    intro db e h
    unfold add_tags_loop
    by_cases hmem : pyLower t ∈ (get_existing_tags db photoId).map pyLower
    · rw [if_pos hmem]
      exact ih db e fun u hu => h u (List.mem_cons_of_mem t hu)
    · rw [if_neg hmem]
      rcases h t (List.mem_cons_self t ts) with hl | ⟨k, hfk, he⟩
      · exact absurd ((pyLower_mem_existing db photoId t).2 hl) hmem
      · rw [goc_found env db t k hfk]
        simp only [none_failEdgeSelect, Bool.false_eq_true, if_false, Nat.add_zero, if_pos he]
        exact ih db e fun u hu => h u (List.mem_cons_of_mem t hu)

/-- A fault-free `add_tags` call succeeds, extends the catalog, and
leaves every requested tag `ReadyCI`. -/
theorem add_tags_none_ok (env : KwEnv) (db : Catalog) (photoId : Nat) (tags : List String) :
    ∃ db', add_tags env FaultSpec.none db photoId tags = ⟨db', true, false, 0⟩
      ∧ catLe db db'
      ∧ ∀ t, t ∈ tags → ReadyCI db' photoId t := by
  rcases hts : tags with _ | ⟨t₀, ts⟩
  · exact ⟨db, rfl, catLe_refl db, fun t ht => absurd ht (List.not_mem_nil t)⟩
  · rw [← hts]
    have hne : tags.isEmpty = false := by rw [hts]; rfl
    rcases loop_none_shape env photoId ((get_existing_tags db photoId).map pyLower) tags db 0
      with ⟨db', hl, hle⟩
    have hpost := loop_none_post env photoId ((get_existing_tags db photoId).map pyLower)
      tags db 0 (fun s hs => (pyLower_mem_existing db photoId s).1 hs)
    rw [hl] at hpost
    refine ⟨db', ?_, hle, hpost⟩
    unfold add_tags
    simp only [hne, none_failExisting, none_failBegin, none_failCommit, Bool.false_eq_true,
      if_false]
    rw [hl]

/-- A fault-free `add_tags` call whose tags are all `ReadyCI` returns
`True` and leaves the catalog unchanged. -/
theorem add_tags_none_noop (env : KwEnv) (db : Catalog) (photoId : Nat) (tags : List String)
    (h : ∀ t, t ∈ tags → ReadyCI db photoId t) :
    add_tags env FaultSpec.none db photoId tags = ⟨db, true, false, 0⟩ := by
  rcases hts : tags with _ | ⟨t₀, ts⟩
  · rfl
  · rw [← hts]
    have hne : tags.isEmpty = false := by rw [hts]; rfl
    unfold add_tags
    simp only [hne, none_failExisting, none_failBegin, none_failCommit, Bool.false_eq_true,
      if_false]
    rw [loop_none_noop env photoId tags db 0 h]

/-! ## Claim C6: idempotence of `add_tags` -/

/-- C6: `add_tags` is idempotent — after one fault-free call, repeating
the very same call (with any UUID/timestamp environment) returns
`True` and leaves the catalog, hence its keyword rows and its
photo-keyword edge set, exactly as after the first call. -/
theorem c6_add_tags_idempotent :
    ∀ (env₁ env₂ : KwEnv) (db : Catalog) (photoId : Nat) (tags : List String),
      add_tags env₂ FaultSpec.none (add_tags env₁ FaultSpec.none db photoId tags).db photoId tags
        = ⟨(add_tags env₁ FaultSpec.none db photoId tags).db, true, false, 0⟩ := by
  intro env₁ env₂ db photoId tags
  rcases add_tags_none_ok env₁ db photoId tags with ⟨db', h1, -, hready⟩
  rw [h1]
  exact add_tags_none_noop env₂ db' photoId tags hready

/-! ## Claim C3: case-insensitive merge -/

/-- Lowercasing to the empty string forces the empty string. -/
theorem pyLower_eq_empty {s : String} (h : pyLower s = "") : s = "" := by
  unfold pyLower at h
  cases s with
  | mk data =>
    have hd : data.map Char.toLower = [] := congrArg String.data h
    have : data = [] := List.map_eq_nil_iff.1 hd
    rw [this]

/-- C3 counterexample: a single `add_tags(1, ["Paris", "paris"])` call on
an empty catalog creates two keyword rows whose names differ only by
letter case and two photo-keyword edges for photo 1, because the
case-insensitive skip list is computed once, before the loop, and not
updated as the call itself links new keywords. -/
theorem c3_single_call_two_edges_counterexample :
    (add_tags cxKwEnv FaultSpec.none emptyCatalog 1 ["Paris", "paris"]).db.edges = [(1, 1), (1, 2)]
      ∧ ((add_tags cxKwEnv FaultSpec.none emptyCatalog 1 ["Paris", "paris"]).db.keywords.map
          Keyword.name) = ["Paris", "paris"]
      ∧ pyLower "Paris" = pyLower "paris"
      ∧ "Paris" ≠ "paris" := by
  refine ⟨by decide, by decide, by decide, by decide⟩

/-- C3 (amended): across separate calls the merge is case-insensitive —
after `add_tags(p, [t₁])`, a second call `add_tags(p, [t₂])` with any
case variant `t₂` of `t₁` returns `True` and changes nothing, so
`add_tags(p, ["Paris"])` then `add_tags(p, ["paris"])` leaves exactly
one keyword row and one edge; only within a single call can two
casings of a new tag still produce two keyword rows and two edges. -/
theorem c3_sequential_case_insensitive_merge :
    ∀ (env₁ env₂ : KwEnv) (db : Catalog) (photoId : Nat) (t₁ t₂ : String),
      pyLower t₁ = pyLower t₂ →
      add_tags env₂ FaultSpec.none (add_tags env₁ FaultSpec.none db photoId [t₁]).db photoId [t₂]
        = ⟨(add_tags env₁ FaultSpec.none db photoId [t₁]).db, true, false, 0⟩ := by
  intro env₁ env₂ db photoId t₁ t₂ hlow
  rcases add_tags_none_ok env₁ db photoId [t₁] with ⟨db', h1, -, hready⟩
  have hr₁ : ReadyCI db' photoId t₁ := hready t₁ (List.mem_singleton.2 rfl)
  have hr₂ : ReadyCI db' photoId t₂ := by
    rcases hr₁ with ⟨k, hk, hne, he, hl⟩ | ⟨k, hfk, he⟩
    · exact Or.inl ⟨k, hk, hne, he, by rw [hl, hlow]⟩
    · have hname : k.name = t₁ := findKeyword_name hfk
      by_cases ht1 : t₁ = ""
      · have ht2 : t₂ = "" := by
          apply pyLower_eq_empty
          rw [← hlow, ht1]
          rfl
        rw [ht2]
        rw [ht1] at hfk
        exact Or.inr ⟨k, hfk, he⟩
      · refine Or.inl ⟨k, findKeyword_mem hfk, by rw [hname]; exact ht1, he, ?_⟩
        rw [hname, hlow]
  rw [h1]
  exact add_tags_none_noop env₂ db' photoId [t₂]
    fun u hu => by rw [List.mem_singleton.1 hu]; exact hr₂

/-- C3 witness: the concrete `"Paris"`/`"paris"` sequence on the empty
catalog — the second call is a no-op, leaving the single keyword row
and single edge of the first call. -/
theorem c3_sequential_case_insensitive_merge_witness :
    pyLower "Paris" = pyLower "paris"
      ∧ add_tags cxKwEnv FaultSpec.none
            (add_tags cxKwEnv FaultSpec.none emptyCatalog 1 ["Paris"]).db 1 ["paris"]
          = ⟨(add_tags cxKwEnv FaultSpec.none emptyCatalog 1 ["Paris"]).db, true, false, 0⟩
      ∧ (add_tags cxKwEnv FaultSpec.none emptyCatalog 1 ["Paris"]).db.keywords.length = 1
      ∧ (add_tags cxKwEnv FaultSpec.none emptyCatalog 1 ["Paris"]).db.edges = [(1, 1)] :=
  ⟨by decide,
   c3_sequential_case_insensitive_merge cxKwEnv cxKwEnv emptyCatalog 1 "Paris" "paris"
     (by decide),
   by decide, by decide⟩

/-! ## Lemmas about the worker loop -/

/-- The cursor after one processed iteration. -/
theorem stepAt_current (env : BatchEnv) (cfg : Config) (i : Nat) (photo : Photo) (st : BatchSt) :
    (stepAt env cfg i photo st).current_photo = i + 1 := rfl

/-- The state after one processed iteration, in components. -/
theorem stepAt_eq (env : BatchEnv) (cfg : Config) (i : Nat) (photo : Photo) (st : BatchSt) :
    stepAt env cfg i photo st
      = { current_photo := i + 1
          total_photos := st.total_photos
          core := process_single_photo env cfg st.core photo
          progressFires := st.progressFires + 1
          processedIdx := st.processedIdx ++ [i] } := rfl

/-- `fireProgressN` only touches the ghost fire count. -/
theorem fireProgressN_eq (n : Nat) :
    ∀ st : BatchSt, fireProgressN n st
      = { st with progressFires := st.progressFires + n } := by
  induction n with
  | zero => intro st; rfl
  | succ m ih =>
    intro st
    show fireProgressN m (fireProgress st) = _
    rw [ih (fireProgress st)]
    unfold fireProgress
    cases st
    simp only [BatchSt.mk.injEq, true_and, and_true]
    omega

/-- With the cursor at or behind the iteration index, the loop never
skips: it is the straight-line runner. -/
theorem loop_eq_runSeg (env : BatchEnv) (cfg : Config) :
    ∀ (l : List Photo) (i : Nat) (st : BatchSt), st.current_photo ≤ i →
      process_photos_loop env cfg i l st = runSeg env cfg i l st := by
  intro l
  induction l with
  | nil => intro i st _; rfl
  | cons photo rest ih =>
    intro i st hle
    unfold process_photos_loop runSeg
    rw [if_neg]
    · exact ih (i + 1) (stepAt env cfg i photo st) (by rw [stepAt_current])
    · rintro ⟨-, hlt⟩
      omega

/-- The straight-line runner splits over list append. -/
theorem runSeg_append (env : BatchEnv) (cfg : Config) :
    ∀ (a b : List Photo) (i : Nat) (st : BatchSt),
      runSeg env cfg i (a ++ b) st = runSeg env cfg (i + a.length) b (runSeg env cfg i a st) := by
  intro a
  induction a with
  | nil => intro b i st; rfl
  | cons photo rest ih =>
    intro b i st
    show runSeg env cfg (i + 1) (rest ++ b) (stepAt env cfg i photo st) = _
    rw [ih b (i + 1) (stepAt env cfg i photo st)]
    have : i + 1 + rest.length = i + (photo :: rest).length := by
      simp
      omega
    rw [this]
    rfl

/-- The store/counter part of the runner ignores the cursor. -/
theorem runSeg_core (env : BatchEnv) (cfg : Config) :
    ∀ (l : List Photo) (i : Nat) (st : BatchSt),
      (runSeg env cfg i l st).core = coreFold env cfg l st.core := by
  intro l
  induction l with
  | nil => intro i st; rfl
  | cons photo rest ih =>
    intro i st
    show (runSeg env cfg (i + 1) rest (stepAt env cfg i photo st)).core = _
    rw [ih (i + 1) (stepAt env cfg i photo st)]
    rfl

/-- The runner leaves the total untouched. -/
theorem runSeg_total (env : BatchEnv) (cfg : Config) :
    ∀ (l : List Photo) (i : Nat) (st : BatchSt),
      (runSeg env cfg i l st).total_photos = st.total_photos := by
  intro l
  induction l with
  | nil => intro i st; rfl
  | cons photo rest ih =>
    intro i st
    show (runSeg env cfg (i + 1) rest (stepAt env cfg i photo st)).total_photos = _
    rw [ih (i + 1) (stepAt env cfg i photo st)]
    rfl

/-- Cursor after running a segment. -/
theorem runSeg_current (env : BatchEnv) (cfg : Config) :
    ∀ (l : List Photo) (i : Nat) (st : BatchSt),
      (runSeg env cfg i l st).current_photo
        = if l.isEmpty then st.current_photo else i + l.length := by
  intro l
  induction l with
  | nil => intro i st; rfl
  | cons photo rest ih =>
    intro i st
    show (runSeg env cfg (i + 1) rest (stepAt env cfg i photo st)).current_photo = _
    rw [ih (i + 1) (stepAt env cfg i photo st)]
    rcases hres : rest with _ | ⟨q, qs⟩
    · simp [stepAt_current]
    · simp only [List.isEmpty_cons, Bool.false_eq_true, if_false, List.length_cons]
      omega

/-- Ghost trace of processed loop indices of a segment run. -/
theorem runSeg_processed (env : BatchEnv) (cfg : Config) :
    ∀ (l : List Photo) (i : Nat) (st : BatchSt),
      (runSeg env cfg i l st).processedIdx = st.processedIdx ++ List.range' i l.length := by
  intro l
  induction l with
  | nil => intro i st; simp [runSeg]
  | cons photo rest ih =>
    intro i st
    show (runSeg env cfg (i + 1) rest (stepAt env cfg i photo st)).processedIdx = _
    rw [ih (i + 1) (stepAt env cfg i photo st)]
    rw [stepAt_eq]
    simp only [List.length_cons, List.range'_succ]
    rw [List.append_assoc]
    rfl

/-- Progress fires once per iteration of a segment run. -/
theorem runSeg_fires (env : BatchEnv) (cfg : Config) :
    ∀ (l : List Photo) (i : Nat) (st : BatchSt),
      (runSeg env cfg i l st).progressFires = st.progressFires + l.length := by
  intro l
  induction l with
  | nil => intro i st; rfl
  | cons photo rest ih =>
    intro i st
    show (runSeg env cfg (i + 1) rest (stepAt env cfg i photo st)).progressFires = _
    rw [ih (i + 1) (stepAt env cfg i photo st), stepAt_eq]
    simp
    omega

/-- A fresh run with the pause flag observed at index `k` processes
exactly the first `k - i` photos and stops. -/
theorem pausedLoop_eq_runSeg (env : BatchEnv) (cfg : Config) (k : Nat) :
    ∀ (l : List Photo) (i : Nat) (st : BatchSt), st.current_photo ≤ i → i ≤ k →
      process_photos_loop_paused env cfg k i l st = runSeg env cfg i (l.take (k - i)) st := by
  intro l
  induction l with
  | nil => intro i st _ _; simp [process_photos_loop_paused, runSeg]
  | cons photo rest ih =>
    intro i st hle hik
    unfold process_photos_loop_paused
    rw [if_neg (by rintro ⟨-, hlt⟩; omega)]
    by_cases hk : i = k
    · rw [if_pos hk, hk, Nat.sub_self]
      rfl
    · rw [if_neg hk]
      have hik' : i + 1 ≤ k := by omega
      rw [ih (i + 1) (stepAt env cfg i photo st) (by rw [stepAt_current]) hik']
      have htake : (photo :: rest).take (k - i) = photo :: rest.take (k - (i + 1)) := by
        have h1 : k - i = (k - (i + 1)) + 1 := by omega
        rw [h1, List.take_succ_cons]
      rw [htake]
      rfl

/-- A resumed loop with positive saved cursor `c` skips the first `c - i`
photos — firing one progress notification for each — and then runs the
rest straight-line from index `c`. -/
theorem resumedLoop_eq_runSeg (env : BatchEnv) (cfg : Config) :
    ∀ (l : List Photo) (i : Nat) (st : BatchSt),
      0 < st.current_photo → i ≤ st.current_photo →
      process_photos_loop env cfg i l st
        = runSeg env cfg st.current_photo (l.drop (st.current_photo - i))
            (fireProgressN (min (st.current_photo - i) l.length) st) := by
  intro l
  induction l with
  | nil =>
    intro i st _ _
    simp [process_photos_loop, runSeg, fireProgressN]
  | cons photo rest ih =>
    intro i st hpos hle
    by_cases hk : i = st.current_photo
    · rw [loop_eq_runSeg env cfg (photo :: rest) i st (by omega), hk, Nat.sub_self]
      rfl
    · have hlt : i < st.current_photo := by omega
      unfold process_photos_loop
      rw [if_pos ⟨hpos, hlt⟩]
      have hfp : (fireProgress st).current_photo = st.current_photo := rfl
      rw [ih (i + 1) (fireProgress st) (by rw [hfp]; omega) (by rw [hfp]; omega), hfp]
      have hd : (photo :: rest).drop (st.current_photo - i)
          = rest.drop (st.current_photo - (i + 1)) := by
        have h1 : st.current_photo - i = (st.current_photo - (i + 1)) + 1 := by omega
        rw [h1, List.drop_succ_cons]
      have hm : min (st.current_photo - i) (photo :: rest).length
          = min (st.current_photo - (i + 1)) rest.length + 1 := by
        simp only [List.length_cons]
        omega
      rw [hd, hm]
      rfl

/-! ## Claim C1: pause/resume exactness -/

/-- C1: pausing a fresh batch at the loop boundary after photo `k`
persists the full batch state (cursor, totals, counters,
configuration, mappings); resuming restores that configuration and
state exactly, re-runs the loop, skips photos `1..k` while still
firing one progress notification each (plus the one fired by
`_restore_state`), processes photos `k+1..N` exactly once, and ends
with the same `_process_single_photo` state — all counters and both
stores — and the same cursor as an uninterrupted run over the same
snapshot with the same deterministic collaborators. -/
theorem c1_pause_resume_exact :
    ∀ (env : BatchEnv) (cfg : Config) (core : Core) (timestamp : String) (k : Nat),
      k < env.photos.length →
      let paused := run_batch_paused env cfg core k
      let saved := save_state timestamp cfg paused
      let r := restore_state saved cfg paused.core
      let resumed := process_photos_loop env cfg 0 env.photos r.2
      let full := run_batch env cfg core
      r.1 = cfg
      ∧ r.2.core = paused.core
      ∧ r.2.current_photo = paused.current_photo
      ∧ saved.current_photo = k
      ∧ resume_after_pause env cfg core k timestamp = (r.1, resumed)
      ∧ resumed.core = full.core
      ∧ resumed.current_photo = full.current_photo
      ∧ full.processedIdx = List.range' 0 env.photos.length
      ∧ paused.processedIdx = List.range' 0 k
      ∧ resumed.processedIdx = List.range' k (env.photos.length - k)
      ∧ paused.processedIdx ++ resumed.processedIdx = full.processedIdx
      ∧ resumed.progressFires = 1 + k + (env.photos.length - k) := by
  intro env cfg core ts k hk
  have hkle : k ≤ env.photos.length := Nat.le_of_lt hk
  have h1 : run_batch env cfg core
      = runSeg env cfg 0 env.photos (initBatchSt core env.photos.length) :=
    loop_eq_runSeg env cfg env.photos 0 _ (Nat.le_refl 0)
  have hlen : (env.photos.take k).length = k := by
    rw [List.length_take]
    omega
  have hpaused : run_batch_paused env cfg core k
      = runSeg env cfg 0 (env.photos.take k) (initBatchSt core env.photos.length) := by
    have := pausedLoop_eq_runSeg env cfg k env.photos 0 (initBatchSt core env.photos.length)
      (Nat.le_refl 0) (Nat.zero_le k)
    rwa [Nat.sub_zero] at this
  have hfull : run_batch env cfg core
      = runSeg env cfg k (env.photos.drop k) (run_batch_paused env cfg core k) := by
    rw [h1, hpaused]
    conv_lhs => rw [← List.take_append_drop k env.photos]
    rw [runSeg_append]
    rw [hlen, Nat.zero_add, List.take_append_drop]
  have hcurP : (run_batch_paused env cfg core k).current_photo = k := by
    rw [hpaused, runSeg_current]
    rcases Nat.eq_zero_or_pos k with rfl | hkpos
    · simp
      rfl
    · have hne : (env.photos.take k).isEmpty = false := by
        rcases hE : env.photos.take k with _ | _
        · rw [hE] at hlen
          simp at hlen
          omega
        · rfl
      rw [hne]
      simp [hlen]
  have hrcur : (restore_state (save_state ts cfg (run_batch_paused env cfg core k)) cfg
      (run_batch_paused env cfg core k).core).2.current_photo = k := hcurP
  have hrcore : (restore_state (save_state ts cfg (run_batch_paused env cfg core k)) cfg
      (run_batch_paused env cfg core k).core).2.core = (run_batch_paused env cfg core k).core :=
    rfl
  have hres : process_photos_loop env cfg 0 env.photos
        (restore_state (save_state ts cfg (run_batch_paused env cfg core k)) cfg
          (run_batch_paused env cfg core k).core).2
      = runSeg env cfg k (env.photos.drop k)
          (fireProgressN k
            (restore_state (save_state ts cfg (run_batch_paused env cfg core k)) cfg
              (run_batch_paused env cfg core k).core).2) := by
    rcases Nat.eq_zero_or_pos k with rfl | hkpos
    · rw [loop_eq_runSeg env cfg env.photos 0 _ (by rw [hrcur])]
      rfl
    · have := resumedLoop_eq_runSeg env cfg env.photos 0
        (restore_state (save_state ts cfg (run_batch_paused env cfg core k)) cfg
          (run_batch_paused env cfg core k).core).2
        (by rw [hrcur]; exact hkpos) (by rw [hrcur]; exact Nat.zero_le k)
      rw [hrcur, Nat.sub_zero, Nat.min_eq_left hkle] at this
      exact this
  have hbase_core : (fireProgressN k
      (restore_state (save_state ts cfg (run_batch_paused env cfg core k)) cfg
        (run_batch_paused env cfg core k).core).2).core
      = (run_batch_paused env cfg core k).core := by
    rw [fireProgressN_eq]
    rfl
  have hbase_cur : (fireProgressN k
      (restore_state (save_state ts cfg (run_batch_paused env cfg core k)) cfg
        (run_batch_paused env cfg core k).core).2).current_photo = k := by
    rw [fireProgressN_eq]
    exact hrcur
  have hbase_proc : (fireProgressN k
      (restore_state (save_state ts cfg (run_batch_paused env cfg core k)) cfg
        (run_batch_paused env cfg core k).core).2).processedIdx = [] := by
    rw [fireProgressN_eq]
    rfl
  have hbase_fires : (fireProgressN k
      (restore_state (save_state ts cfg (run_batch_paused env cfg core k)) cfg
        (run_batch_paused env cfg core k).core).2).progressFires = 1 + k := by
    rw [fireProgressN_eq]
    show 1 + k = 1 + k
    rfl
  refine ⟨rfl, rfl, rfl, hcurP, rfl, ?_, ?_, ?_, ?_, ?_, ?_, ?_⟩
  · -- resumed.core = full.core
    rw [hres, hfull, runSeg_core, runSeg_core, hbase_core]
  · -- cursors agree
    rw [hres, hfull, runSeg_current, runSeg_current, hbase_cur, hcurP]
  · -- full processes 0..N-1
    rw [h1, runSeg_processed]
    rfl
  · -- paused processes 0..k-1
    rw [hpaused, runSeg_processed, hlen]
    rfl
  · -- resumed processes k..N-1
    rw [hres, runSeg_processed, hbase_proc, List.length_drop]
    rfl
  · -- together: each photo exactly once
    rw [hres, runSeg_processed, hbase_proc, List.length_drop, hpaused, runSeg_processed, hlen,
      h1, runSeg_processed]
    show List.range' 0 k ++ List.range' k (env.photos.length - k) = List.range' 0 env.photos.length
    have h2 := List.range'_append 0 k (env.photos.length - k) 1
    simp only [Nat.mul_one, Nat.zero_add, Nat.one_mul] at h2
    rw [h2]
    congr 1
    omega
  · -- progress fires: one per restore, one per skipped photo, one per processed photo
    rw [hres, runSeg_fires, hbase_fires, List.length_drop]

/-- C1 witness: the two-photo environment paused after photo 1. -/
theorem c1_pause_resume_exact_witness :
    1 < c1Env.photos.length
      ∧ (let paused := run_batch_paused c1Env cxCfg (initCore emptyCatalog []) 1
         let saved := save_state "t0" cxCfg paused
         let r := restore_state saved cxCfg paused.core
         let resumed := process_photos_loop c1Env cxCfg 0 c1Env.photos r.2
         let full := run_batch c1Env cxCfg (initCore emptyCatalog [])
         r.1 = cxCfg
         ∧ r.2.core = paused.core
         ∧ r.2.current_photo = paused.current_photo
         ∧ saved.current_photo = 1
         ∧ resume_after_pause c1Env cxCfg (initCore emptyCatalog []) 1 "t0" = (r.1, resumed)
         ∧ resumed.core = full.core
         ∧ resumed.current_photo = full.current_photo
         ∧ full.processedIdx = List.range' 0 c1Env.photos.length
         ∧ paused.processedIdx = List.range' 0 1
         ∧ resumed.processedIdx = List.range' 1 (c1Env.photos.length - 1)
         ∧ paused.processedIdx ++ resumed.processedIdx = full.processedIdx
         ∧ resumed.progressFires = 1 + 1 + (c1Env.photos.length - 1)) :=
  ⟨by decide, c1_pause_resume_exact c1Env cxCfg (initCore emptyCatalog []) "t0" 1 (by decide)⟩

end PhotoTagger
